import Mathlib

/-!
Difodo-Multicamera: dataset reader of the multi-camera visual odometry.

Shallow embedding of `CDifodoDatasets` (`Difodo_multi_datasets.h`,
`Difodo_multi_datasets.cpp`): `loadConfiguration`, `loadFrame` and `reset`.

Conventions of the embedding

* `unsigned int` values are natural numbers; every operation that can leave
  the range `[0, 2^32)` carries an explicit `% 2^32`.
* `float` samples are IEEE-754 binary32 bit patterns (`F32`); the only float
  operation of `loadFrame` is the comparison `z < 4.5f`, which is modelled
  bit-exactly.
* An Eigen matrix is its two dimensions and its coefficients. The reads and
  writes `m(r, c)` of `loadFrame` go through `CMatrix.getCoeff` and
  `CMatrix.setCoeff`, which fail outside the dimensions: there Eigen stops on
  an assertion, or, with assertions compiled out, the access is undefined.
* A C++ exception leaves the object in the state reached when it was thrown:
  `loadFrame` returns how it was left (`Exit`) together with that state. At
  an access outside a matrix the program does not go on; the state returned
  with that exit is the one reached before the pixel loops.
* Members that hold floating-point poses and calibration matrices
  (`fovh`, `fovv`, `cam_pose`, `calib_mat`, `global_pose`, `global_oldpose`,
  `global_trans`, `transformations`) and the OpenGL scene are not read by any
  operation embedded here and are left out.
-/

namespace Difodo

/-! ## IEEE-754 binary32 samples -/

/-- A `float`: the 32 bits of its IEEE-754 binary32 encoding
(bit 31 sign, bits 30..23 exponent, bits 22..0 mantissa). -/
structure F32 where
  bits : Nat
deriving DecidableEq, Repr

namespace F32

/-- Sign bit. -/
def sign (z : F32) : Nat := z.bits / 2 ^ 31 % 2

/-- Biased exponent field. -/
def expo (z : F32) : Nat := z.bits / 2 ^ 23 % 256

/-- Mantissa field. -/
def mant (z : F32) : Nat := z.bits % 2 ^ 23

/-- Not-a-number: exponent all ones, mantissa non-zero. -/
def isNaN (z : F32) : Bool := z.expo == 255 && z.mant != 0

/-- Finite value: exponent not all ones. -/
def isFinite (z : F32) : Bool := z.expo != 255

/-- Order key of a non-NaN float: binary32 is a sign-magnitude format, so
the magnitude bits taken as an integer, negated under the sign bit, order the
floats as their values do (`-0.0` and `+0.0` both have key 0, `-inf` has the
least key and `+inf` the greatest). -/
def key (z : F32) : Int :=
  if z.sign = 0 then ((z.bits % 2 ^ 31 : Nat) : Int) else -((z.bits % 2 ^ 31 : Nat) : Int)

/-- The C++ comparison `a < b` on floats: false when either side is NaN. -/
def lt (a b : F32) : Bool := !a.isNaN && !b.isNaN && decide (a.key < b.key)

/-- The C++ comparison `a >= b` on floats: false when either side is NaN. -/
def ge (a b : F32) : Bool := !a.isNaN && !b.isNaN && decide (b.key ≤ a.key)

/-- The literal `0.f`. -/
def zero : F32 := ⟨0⟩

/-- The literal `4.5f` (0x40900000, exactly 4.5). -/
def lit4_5 : F32 := ⟨0x40900000⟩

/-- The float nearest to 4.499 (0x408FF7CF). -/
def lit4_499 : F32 := ⟨0x408FF7CF⟩

/-- The float nearest to 4.501 (0x40900831). -/
def lit4_501 : F32 := ⟨0x40900831⟩

/-- Positive infinity (0x7F800000). -/
def posInf : F32 := ⟨0x7F800000⟩

/-- Negative infinity (0xFF800000). -/
def negInf : F32 := ⟨0xFF800000⟩

/-- The quiet NaN 0x7FC00000. -/
def qNaN : F32 := ⟨0x7FC00000⟩

/-- Magnitude of a finite float in units of `2^-149`: `mant` for a subnormal
(exponent field 0), `(2^23 + mant) * 2^(expo-1)` otherwise. -/
def scaled (z : F32) : Nat :=
  if z.expo = 0 then z.mant else (2 ^ 23 + z.mant) * 2 ^ (z.expo - 1)

/-- The real value of a finite float. -/
def toRat (z : F32) : ℚ :=
  (if z.sign = 0 then (z.scaled : ℚ) else -(z.scaled : ℚ)) / 2 ^ 149

end F32

/-! ## Matrices and the sensor log -/

/-- An Eigen float matrix (`CMatrix`, `MatrixXf`): dimensions and
coefficients. `coeff r c` is the coefficient at row `r`, column `c`, which
exists when `r < rows` and `c < cols`; the values of `coeff` elsewhere stand
for nothing and no operation below reads them. -/
structure CMatrix where
  rows : Nat
  cols : Nat
  coeff : Nat → Nat → F32

namespace CMatrix

/-- The calls `m.resize(r, c)` and `m.setSize(r, c)`: new dimensions, contents
not relied upon. -/
def resize (m : CMatrix) (r c : Nat) : CMatrix := { m with rows := r, cols := c }

/-- The call `m.assign(v)`: every coefficient becomes `v`. -/
def assign (m : CMatrix) (v : F32) : CMatrix := { m with coeff := fun _ _ => v }

/-- The read `m(r, c)`: the coefficient when the pair lies inside the matrix,
`none` (assertion failure or undefined access) when it does not. -/
def getCoeff (m : CMatrix) (r c : Nat) : Option F32 :=
  if r < m.rows ∧ c < m.cols then some (m.coeff r c) else none

/-- The assignment `m(i, j) = v`: the updated matrix when the pair lies inside
the matrix, `none` (assertion failure or undefined access) when it does not. -/
def setCoeff (m : CMatrix) (i j : Nat) (v : F32) : Option CMatrix :=
  if i < m.rows ∧ j < m.cols then
    some { m with coeff := fun r c => if r = i ∧ c = j then v else m.coeff r c }
  else none

/-- The default-constructed matrix. -/
def empty : CMatrix := ⟨0, 0, fun _ _ => F32.zero⟩

end CMatrix

/-- A record of the rawlog as `getAsObservation` hands it out: a
`CObservation3DRangeScan` with its range image, or an observation of any
other class; `IS_CLASS(alfa, CObservation3DRangeScan)` tells the two apart. -/
inductive CObservation where
  | CObservation3DRangeScan (rangeImage : CMatrix)
  | otherClass

/-- The call `dataset.getAsObservation(index)`: MRPT throws
("Index out of bounds") when `index >= dataset.size()`, here `none`. -/
def getAsObservation (dataset : List CObservation) (index : Nat) : Option CObservation :=
  dataset[index]?

/-! ## The object state -/

/-- The grids of one camera at one pyramid level: `depth[c][i]`,
`depth_inter[c][i]`, ... of `CDifodo`, gathered in one record. -/
structure PyrLevel where
  depth : CMatrix
  depth_inter : CMatrix
  depth_old : CMatrix
  xx : CMatrix
  xx_inter : CMatrix
  xx_old : CMatrix
  yy : CMatrix
  yy_inter : CMatrix
  yy_old : CMatrix
  zz_global : CMatrix
  xx_global : CMatrix
  yy_global : CMatrix
  depth_warped : CMatrix
  xx_warped : CMatrix
  yy_warped : CMatrix

/-- A level none of whose grids has been sized. -/
def PyrLevel.empty : PyrLevel :=
  { depth := CMatrix.empty, depth_inter := CMatrix.empty, depth_old := CMatrix.empty,
    xx := CMatrix.empty, xx_inter := CMatrix.empty, xx_old := CMatrix.empty,
    yy := CMatrix.empty, yy_inter := CMatrix.empty, yy_old := CMatrix.empty,
    zz_global := CMatrix.empty, xx_global := CMatrix.empty, yy_global := CMatrix.empty,
    depth_warped := CMatrix.empty, xx_warped := CMatrix.empty, yy_warped := CMatrix.empty }

/-- The grids of a level that `loadConfiguration` sizes: the twelve it always
resizes, and the three warped ones when `warped` holds. -/
def PyrLevel.grids (l : PyrLevel) (warped : Bool) : List CMatrix :=
  [l.depth, l.depth_inter, l.depth_old, l.xx, l.xx_inter, l.xx_old, l.yy, l.yy_inter,
    l.yy_old, l.zz_global, l.xx_global, l.yy_global] ++
  (if warped then [l.depth_warped, l.xx_warped, l.yy_warped] else [])

/-- Members of the base class `CDifodo` used by `CDifodoDatasets`
(all `unsigned int` but the flag and the grids). `depth_wf c` is
`depth_wf[c]`, `pyr c i` the grids `...[c][i]`; the header that declares these
containers is not part of these files, and they are taken to hold every
camera and level that is addressed. -/
structure CDifodo where
  cam_mode : Nat
  downsample : Nat
  rows : Nat
  cols : Nat
  ctf_levels : Nat
  width : Nat
  height : Nat
  rows_i : Nat
  cols_i : Nat
  fast_pyramid : Bool
  depth_wf : Nat → CMatrix
  pyr : Nat → Nat → PyrLevel

/-- The class `CDifodoDatasets` of `Difodo_multi_datasets.h`. -/
structure CDifodoDatasets extends CDifodo where
  dataset : List CObservation
  repr_level : Nat
  rawlog_count : Nat
  first_pose : Bool
  save_results : Bool
  dataset_finished : Bool

/-- The constructor `CDifodoDatasets()`: `save_results = 0`,
`first_pose = false`, `dataset_finished = false`, matrices and log empty. The
integer members, which the constructor leaves uninitialised, are given the
value 0 here; `loadConfiguration` sets `rawlog_count` and the resolution
members before `loadFrame` reads them. -/
def CDifodoDatasets.new : CDifodoDatasets :=
  { cam_mode := 0, downsample := 0, rows := 0, cols := 0, ctf_levels := 0, width := 0,
    height := 0, rows_i := 0, cols_i := 0, fast_pyramid := false,
    depth_wf := fun _ => .empty, pyr := fun _ _ => .empty,
    dataset := [], repr_level := 0, rawlog_count := 0,
    first_pose := false, save_results := false, dataset_finished := false }

/-! ## loadConfiguration -/

/-- The configuration source as `loadConfiguration` reads it: the integer
options of section `DIFODO_CONFIG` (`none`: key absent), whether `filename`
and the six pose fields of every `RGBD_k` section are present, and what
`dataset.loadFromRawLogFile(filename)` yields (`none`: the call returns
false). -/
structure CConfigFileBase where
  cam_mode : Option Int
  downsample : Option Int
  rows : Option Int
  cols : Option Int
  ctf_levels : Option Int
  filename : Bool
  extrinsics : Bool
  rawlog : Option (List CObservation)

/-- How `loadConfiguration` can fail to return: an exception of
`read_int`/`read_string`/`read_double` called with `failIfNotFound = true`,
the `std::runtime_error` thrown when the rawlog cannot be opened, or an
operation the C++ standard leaves undefined (integer division by zero,
conversion of an out-of-range float to an integer type). -/
inductive Failure where
  | missingOption
  | cannotOpenRawlog
  | undefinedBehaviour
deriving DecidableEq, Repr

/-- Conversion of the `int` returned by `read_int` to an `unsigned int` member. -/
def toUInt (v : Int) : Nat := (v % 2 ^ 32).toNat

/-- The call `ini.read_int(section, name, default, true)`. -/
def read_int (v : Option Int) : Except Failure Nat :=
  match v with
  | some x => .ok (toUInt x)
  | none => .error .missingOption

/-- Search for the least `k >= k0` with `q^2 < 2^(2k+1)`, in at most `fuel`
steps. -/
def roundLog2From (q : Nat) : Nat → Nat → Nat
  | 0, k => k
  | fuel + 1, k => if q * q < 2 ^ (2 * k + 1) then k else roundLog2From q fuel (k + 1)

/-- The value `round(log(float(q))/log(2.f))` for an integer `q >= 1`: the
integer nearest to `log2 q`, that is the `k` with
`k - 1/2 <= log2 q < k + 1/2`, or `2^(2k-1) <= q^2 < 2^(2k+1)`; it is the least
`k` with `q^2 < 2^(2k+1)`, and at most `q`. No integer `q` has `log2 q`
half-way between two integers, and for the quotients `width/cols <= 640` that
occur `log2 q` stays more than `1e-4` away from such a point, far above the
accuracy of `float`. -/
def roundLog2 (q : Nat) : Nat := roundLog2From q q 0

/-- Lines 97-121 on the grids `l` of one camera at one level: resize all of
them to `rows_i x cols_i`, zero the current and old depth and coordinate
grids, and resize the warped grids only `if (cols_i <= cols)`. -/
def sizedLevel (rows_i cols_i cols : Nat) (l : PyrLevel) : PyrLevel :=
  let l1 : PyrLevel :=
    { l with
      depth := (l.depth.resize rows_i cols_i).assign F32.zero
      depth_inter := l.depth_inter.resize rows_i cols_i
      depth_old := (l.depth_old.resize rows_i cols_i).assign F32.zero
      xx := (l.xx.resize rows_i cols_i).assign F32.zero
      xx_inter := l.xx_inter.resize rows_i cols_i
      xx_old := (l.xx_old.resize rows_i cols_i).assign F32.zero
      yy := (l.yy.resize rows_i cols_i).assign F32.zero
      yy_inter := l.yy_inter.resize rows_i cols_i
      yy_old := (l.yy_old.resize rows_i cols_i).assign F32.zero
      zz_global := l.zz_global.resize rows_i cols_i
      xx_global := l.xx_global.resize rows_i cols_i
      yy_global := l.yy_global.resize rows_i cols_i }
  if cols_i ≤ cols then
    { l1 with
      depth_warped := l1.depth_warped.resize rows_i cols_i
      xx_warped := l1.xx_warped.resize rows_i cols_i
      yy_warped := l1.yy_warped.resize rows_i cols_i }
  else l1

/-- Body of the level loop of `loadConfiguration` (lines 95-121) for camera
`c` and level `i`, with `s = pow(2.f, int(i))`. -/
def allocLevel (c i : Nat) (d : CDifodo) : CDifodo :=
  let s := 2 ^ i
  let cols_i := d.width / s
  let rows_i := d.height / s
  { d with
    cols_i := cols_i
    rows_i := rows_i
    pyr := fun c1 i1 =>
      if c1 = c ∧ i1 = i then sizedLevel rows_i cols_i d.cols (d.pyr c i) else d.pyr c1 i1 }

/-- Body of the camera loop of `loadConfiguration` (lines 93-125) for camera
`c`: the level loop, then `depth_wf[c].setSize(height, width)`. -/
def allocCamera (pyr_levels c : Nat) (d : CDifodo) : CDifodo :=
  let d1 := (List.range pyr_levels).foldl (fun acc i => allocLevel c i acc) d
  { d1 with
    depth_wf := fun c1 =>
      if c1 = c then (d1.depth_wf c).resize d1.height d1.width else d1.depth_wf c1 }

/-- The camera loop of `loadConfiguration` (lines 91-126) for `NC` cameras. -/
def sizePyramid (NC pyr_levels : Nat) (d : CDifodo) : CDifodo :=
  (List.range NC).foldl (fun acc c => allocCamera pyr_levels c acc) d

/-- The method `CDifodoDatasets::loadConfiguration` for `NC` cameras.

Undefined operations of the C++ text: the divisions `640/(cam_mode*downsample)`
and `width/cols` by zero; the conversion to `int` of `log(0.f)/log(2.f)`, which
is minus infinity, when `width < cols`; and the conversion to `unsigned int`
of `pow(2.f, 32)`, reached in the level loop as soon as there is a camera and
more than 32 levels. -/
def loadConfiguration (NC : Nat) (ini : CConfigFileBase) (this : CDifodoDatasets) :
    Except Failure CDifodoDatasets := do
  let cam_mode ← read_int ini.cam_mode
  let downsample ← read_int ini.downsample
  let rows ← read_int ini.rows
  let cols ← read_int ini.cols
  let ctf_levels ← read_int ini.ctf_levels
  if !ini.filename then .error .missingOption
  else if !ini.extrinsics ∧ 0 < NC then .error .missingOption
  else
    match ini.rawlog with
    | none => .error .cannotOpenRawlog
    | some log =>
      let divisor := (cam_mode * downsample) % 2 ^ 32
      if divisor = 0 then .error .undefinedBehaviour
      else
        let width := 640 / divisor
        let height := 480 / divisor
        if cols = 0 then .error .undefinedBehaviour
        else if width / cols = 0 then .error .undefinedBehaviour
        else
          let repr_level := roundLog2 (width / cols)
          let pyr_levels := roundLog2 (width / cols) + ctf_levels
          if 0 < NC ∧ 32 < pyr_levels then .error .undefinedBehaviour
          else
            let d0 : CDifodo :=
              { this.toCDifodo with
                cam_mode := cam_mode, fast_pyramid := true, downsample := downsample,
                rows := rows, cols := cols, ctf_levels := ctf_levels,
                width := width, height := height }
            .ok { this with
                  toCDifodo := sizePyramid NC pyr_levels d0, dataset := log, rawlog_count := 0,
                  repr_level := repr_level }

/-- The local constant `pyr_levels` of `loadConfiguration`, from the members
it has set. -/
def pyrLevels (this : CDifodoDatasets) : Nat :=
  roundLog2 (this.width / this.cols) + this.ctf_levels

/-! ## loadFrame -/

/-- Unsigned 32-bit subtraction `a - b`. -/
def usub32 (a b : Nat) : Nat := (a % 2 ^ 32 + 2 ^ 32 - b % 2 ^ 32) % 2 ^ 32

/-- Unsigned 32-bit multiplication `a * b`. -/
def umul32 (a b : Nat) : Nat := (a * b) % 2 ^ 32

/-- The index expression `extent - downsample*i - 1` of line 339, in
`unsigned int` arithmetic. -/
def pixelIndex (extent downsample i : Nat) : Nat :=
  usub32 (usub32 extent (umul32 downsample i)) 1

/-- Lines 340-341: `if (z < 4.5f) depth_wf[c](i,j) = z; else depth_wf[c](i,j) = 0.f;`
as the value stored for sample `z`. -/
def storedDepth (z : F32) : F32 := if F32.lt z F32.lit4_5 then z else F32.zero

/-- Body of the pixel loops (lines 339-341) at row `i`, column `j`: the read
`range(height-downsample*i-1, width-downsample*j-1)` and the write
`depth_wf[c](i,j)`; `none` when either falls outside its matrix. -/
def loadPixel (range : CMatrix) (height width downsample : Nat) (j i : Nat) (wf : CMatrix) :
    Option CMatrix :=
  match range.getCoeff (pixelIndex height downsample i) (pixelIndex width downsample j) with
  | none => none
  | some z => wf.setCoeff i j (storedDepth z)

/-- Lines 332-342: the two pixel loops that fill `depth_wf[c]` (here `wf`)
from the range image of an observation; `height` and `width` are the
`unsigned int` locals initialised from `getRowCount()`, `getColCount()`. The
result is `none` as soon as one access falls outside its matrix. -/
def loadDepth (range : CMatrix) (downsample rows cols : Nat) (wf : CMatrix) :
    Option CMatrix :=
  let height := range.rows % 2 ^ 32
  let width := range.cols % 2 ^ 32
  (List.range cols).foldlM
    (fun acc j => (List.range rows).foldlM
      (fun acc1 i => loadPixel range height width downsample j i acc1) acc)
    wf

/-- How a call of `loadFrame` is left: by a `return` (or the end of the
body), by the exception of `getAsObservation` at an index outside the log, by
a read of the range image or a write of `depth_wf[c]` outside the matrix
(lines 339-341: assertion failure or undefined access), or never (the skip
loop cycles through all 2^32 values of `rawlog_count`). -/
inductive Exit where
  | returned
  | indexOutOfBounds
  | undefinedAccess
  | nonTermination
deriving DecidableEq, Repr

/-- How the `while` loop of lines 319-328 is left. -/
inductive Skipped where
  | found (rangeImage : CMatrix) (this : CDifodoDatasets)
  | finished (this : CDifodoDatasets)
  | threw (this : CDifodoDatasets)
  | spinning (this : CDifodoDatasets)

/-- The `while (!IS_CLASS(alfa, CObservation3DRangeScan))` loop of lines
319-328, entered with `alfa` the current record. One unit of fuel per
iteration; `rawlog_count` takes at most 2^32 values, so a loop that has made
2^32 iterations never ends. -/
def skipLoop : Nat → CObservation → CDifodoDatasets → Skipped
  | _, .CObservation3DRangeScan rangeImage, this => .found rangeImage this
  | 0, .otherClass, this => .spinning this
  | fuel + 1, .otherClass, this =>
    let this1 := { this with rawlog_count := (this.rawlog_count + 1) % 2 ^ 32 }
    if this1.dataset.length ≤ this1.rawlog_count then
      .finished { this1 with dataset_finished := true }
    else
      match getAsObservation this1.dataset this1.rawlog_count with
      | none => .threw this1
      | some alfa => skipLoop fuel alfa this1

/-- Lines 330-348 for camera `c`, once `alfa` is a range scan: fill
`depth_wf[c]`, `rawlog_count++`, and set `dataset_finished` when the log is
used up; `none` when a pixel access falls outside its matrix. -/
def consume (c : Nat) (rangeImage : CMatrix) (this : CDifodoDatasets) :
    Option CDifodoDatasets :=
  match loadDepth rangeImage this.downsample this.rows this.cols (this.depth_wf c) with
  | none => none
  | some wf =>
    let this1 : CDifodoDatasets :=
      { this with
        depth_wf := fun c1 => if c1 = c then wf else this.depth_wf c1
        rawlog_count := (this.rawlog_count + 1) % 2 ^ 32 }
    if this1.dataset.length ≤ this1.rawlog_count then
      some { this1 with dataset_finished := true }
    else some this1

/-- The camera loop `for (c = ...; c < NC; c++)` of `loadFrame` with `n`
iterations to go, the next one for camera `c`. -/
def cameraLoop : Nat → Nat → CDifodoDatasets → Exit × CDifodoDatasets
  | 0, _, this => (.returned, this)
  | n + 1, c, this =>
    match getAsObservation this.dataset this.rawlog_count with
    | none => (.indexOutOfBounds, this)
    | some alfa =>
      match skipLoop (2 ^ 32) alfa this with
      | .finished this1 => (.returned, this1)
      | .threw this1 => (.indexOutOfBounds, this1)
      | .spinning this1 => (.nonTermination, this1)
      | .found rangeImage this1 =>
        match consume c rangeImage this1 with
        | none => (.undefinedAccess, this1)
        | some this2 => cameraLoop n (c + 1) this2

/-- The method `CDifodoDatasets::loadFrame` for `NC` cameras. -/
def loadFrame (NC : Nat) (this : CDifodoDatasets) : Exit × CDifodoDatasets :=
  cameraLoop NC 0 this

/-- The method `CDifodoDatasets::reset`. The pyramid builders
`buildCoordinatesPyramidFast` and `buildCoordinatesPyramid` belong to the
base class `CDifodo`, whose source is not part of these files: they are
parameters, acting on the base-class members only. An exception of
`loadFrame` leaves `reset` at once. -/
def reset (NC : Nat) (buildCoordinatesPyramidFast buildCoordinatesPyramid : CDifodo → CDifodo)
    (this : CDifodoDatasets) : Exit × CDifodoDatasets :=
  match loadFrame NC this with
  | (.returned, this1) =>
    (.returned,
      { this1 with
        toCDifodo :=
          if this1.fast_pyramid then buildCoordinatesPyramidFast this1.toCDifodo
          else buildCoordinatesPyramid this1.toCDifodo })
  | other => other

/-- A call made on the object by its driver. -/
inductive Call where
  | loadFrame
  | reset
deriving DecidableEq, Repr

/-- One call, with the state it leaves behind. -/
def Call.run (NC : Nat) (fast slow : CDifodo → CDifodo) :
    Call → CDifodoDatasets → Exit × CDifodoDatasets
  | .loadFrame, this => Difodo.loadFrame NC this
  | .reset, this => Difodo.reset NC fast slow this

/-- The object state after a sequence of calls, each started in the state the
previous one left. -/
def runCalls (NC : Nat) (fast slow : CDifodo → CDifodo) :
    List Call → CDifodoDatasets → CDifodoDatasets
  | [], this => this
  | call :: rest, this => runCalls NC fast slow rest (call.run NC fast slow this).2

/-! ## Reading the log by position (used to state what `loadFrame` reads) -/

/-- Positions and range images of the range-scan records of `records`, whose
first element sits at position `position` of the log, in log order. -/
def rangeScansFrom : List CObservation → Nat → List (Nat × CMatrix)
  | [], _ => []
  | .CObservation3DRangeScan rangeImage :: rest, position =>
    (position, rangeImage) :: rangeScansFrom rest (position + 1)
  | .otherClass :: rest, position => rangeScansFrom rest (position + 1)

/-- The range-scan records at positions `>= p` of the log, in log order, each
with its position. -/
def rangeScansAfter (dataset : List CObservation) (p : Nat) : List (Nat × CMatrix) :=
  rangeScansFrom (dataset.drop p) p

/-! ## Auxiliary notions for the proofs -/

/-- The relation `Frame s s1`: state `s1` differs from `s` at most in the log cursor
(`rawlog_count`, `dataset_finished`) and in the frame buffers `depth_wf`. -/
def Frame (s s1 : CDifodoDatasets) : Prop :=
  ∃ (count : Nat) (finished : Bool) (wf : Nat → CMatrix),
    s1 = { s with rawlog_count := count, dataset_finished := finished, depth_wf := wf }

/-- The object state with which the skip loop is left. -/
def Skipped.state : Skipped → CDifodoDatasets
  | .found _ s => s
  | .finished s => s
  | .threw s => s
  | .spinning s => s

/-- The object state once camera `c` holds the decoded frame `wf` of the
range scan found at position `q` of the log, as lines 330-348 leave it when
`q + 1` fits an `unsigned int`. -/
def servedAt (c : Nat) (wf : CMatrix) (q : Nat) (s : CDifodoDatasets) : CDifodoDatasets :=
  { s with
    depth_wf := fun c1 => if c1 = c then wf else s.depth_wf c1
    rawlog_count := q + 1
    dataset_finished := s.dataset_finished || decide (s.dataset.length ≤ q + 1) }

/-- The size condition on a range image of `H` rows and `W` columns read at
stride `downsample` into `rows x cols` entries: `H` and `W` fit the
`unsigned int` locals, `downsample*(rows-1) < H` and `downsample*(cols-1) < W`. -/
def imageFits (downsample rows cols : Nat) (range : CMatrix) : Bool :=
  decide (range.rows < 2 ^ 32) && decide (range.cols < 2 ^ 32) &&
  decide (downsample * (rows - 1) < range.rows) &&
  decide (downsample * (cols - 1) < range.cols)

/-- The size condition on a frame buffer written at `rows x cols` entries: it
has at least `rows` rows and `cols` columns. -/
def bufferFits (rows cols : Nat) (wf : CMatrix) : Bool :=
  decide (rows ≤ wf.rows) && decide (cols ≤ wf.cols)

/-! ## Concrete logs and states used as test inputs -/

/-- A 2 x 2 range image with four distinct samples slightly above 1.0
(0x3F800000 is 1.0), different for every `v`. -/
def scanImage (v : Nat) : CMatrix := ⟨2, 2, fun r c => ⟨0x3F800000 + 4 * v + 2 * r + c⟩⟩

/-- A log of `n` range-scan records, the `k`-th holding `scanImage k`. -/
def scansLog (n : Nat) : List CObservation :=
  (List.range n).map (fun k => .CObservation3DRangeScan (scanImage k))

/-- A configuration source with every option present and a log that opens. -/
def iniOf (cam_mode downsample rows cols ctf_levels : Int) (log : List CObservation) :
    CConfigFileBase :=
  ⟨some cam_mode, some downsample, some rows, some cols, some ctf_levels, true, true, some log⟩

/-- The state `loadConfiguration` leaves on a freshly constructed object, or
that object itself when it does not return. -/
def configuredBy (NC : Nat) (ini : CConfigFileBase) : CDifodoDatasets :=
  match loadConfiguration NC ini .new with
  | .ok s => s
  | .error _ => .new

/-- The object as `loadConfiguration` leaves it for four cameras on `log` with
`cam_mode = 240`, `downsample = 1`, target 2 x 2 and one level: working
resolution 2 x 2, every `depth_wf[c]` sized 2 x 2, the log at its start. -/
def stateOn (log : List CObservation) : CDifodoDatasets :=
  configuredBy 4 (iniOf 240 1 2 2 1 log)

/-- A range scan whose range image is empty (0 x 0). -/
def emptyScan : CObservation := .CObservation3DRangeScan CMatrix.empty

/-- A 20 x 20 range image with distinct samples slightly above 1.0. -/
def wideImage : CMatrix := ⟨20, 20, fun r c => ⟨0x3F800000 + 20 * r + c⟩⟩

/-- The object as `loadConfiguration` leaves it for four cameras with
`cam_mode = 32`, `downsample = 1`, target 20 x 20 and one level, on a log of
four range scans of 20 x 20 samples followed by one other record: the working
resolution is 15 x 20, so every `depth_wf[c]` is 15 x 20. -/
def stateWide : CDifodoDatasets :=
  configuredBy 4 (iniOf 32 1 20 20 1
    ((List.replicate 4 (.CObservation3DRangeScan wideImage)) ++ [.otherClass]))

/-! # Theorems -/

/-! ## The float comparison agrees with the real values -/

theorem F32.scaled_lt_of_expo_lt (a b : F32) (h : a.expo < b.expo) : a.scaled < b.scaled := by
  have ha : a.mant < 2 ^ 23 := Nat.mod_lt _ (by norm_num)
  have hup : a.scaled < 2 ^ (23 + a.expo) := by
    unfold F32.scaled
    by_cases h0 : a.expo = 0
    · rw [if_pos h0, h0]; exact ha
    · rw [if_neg h0]
      have e : 2 ^ (23 + a.expo) = 2 ^ 24 * 2 ^ (a.expo - 1) := by
        rw [← pow_add]; congr 1; omega
      rw [e]
      exact Nat.mul_lt_mul_of_lt_of_le (by omega) (le_refl _) (Nat.two_pow_pos _)
  have hlow : 2 ^ (23 + a.expo) ≤ b.scaled := by
    unfold F32.scaled
    rw [if_neg (by omega)]
    have e : 2 ^ (23 + a.expo) ≤ 2 ^ 23 * 2 ^ (b.expo - 1) := by
      rw [← pow_add]
      exact Nat.pow_le_pow_right (by norm_num) (by omega)
    exact le_trans e (Nat.mul_le_mul_right _ (by omega))
  omega

theorem F32.scaled_lt_of_mant_lt (a b : F32) (he : a.expo = b.expo) (h : a.mant < b.mant) :
    a.scaled < b.scaled := by
  unfold F32.scaled
  rw [he]
  by_cases h0 : b.expo = 0
  · rw [if_pos h0, if_pos h0]; exact h
  · rw [if_neg h0, if_neg h0]
    exact Nat.mul_lt_mul_of_lt_of_le (by omega) (le_refl _) (Nat.two_pow_pos _)

theorem F32.magnitude_eq (a : F32) : a.bits % 2 ^ 31 = a.expo * 2 ^ 23 + a.mant := by
  unfold F32.expo F32.mant
  omega

theorem F32.magnitude_lt_iff (a b : F32) :
    a.bits % 2 ^ 31 < b.bits % 2 ^ 31 ↔ a.scaled < b.scaled := by
  have ha : a.mant < 2 ^ 23 := Nat.mod_lt _ (by norm_num)
  have hb : b.mant < 2 ^ 23 := Nat.mod_lt _ (by norm_num)
  rw [F32.magnitude_eq, F32.magnitude_eq]
  rcases Nat.lt_trichotomy a.expo b.expo with h | h | h
  · have := F32.scaled_lt_of_expo_lt a b h
    constructor
    · intro _; exact this
    · intro _
      have : (a.expo + 1) * 2 ^ 23 ≤ b.expo * 2 ^ 23 := Nat.mul_le_mul_right _ h
      omega
  · rcases Nat.lt_trichotomy a.mant b.mant with g | g | g
    · have := F32.scaled_lt_of_mant_lt a b h g
      constructor
      · intro _; exact this
      · intro _; rw [h]; omega
    · have e : a.scaled = b.scaled := by unfold F32.scaled; rw [h, g]
      rw [h, g, e]
      simp
    · have := F32.scaled_lt_of_mant_lt b a h.symm g
      constructor
      · intro h2; rw [h] at h2; omega
      · intro h2; omega
  · have := F32.scaled_lt_of_expo_lt b a h
    constructor
    · intro h2
      have : (b.expo + 1) * 2 ^ 23 ≤ a.expo * 2 ^ 23 := Nat.mul_le_mul_right _ h
      omega
    · intro h2; omega

theorem F32.magnitude_zero_iff (a : F32) : a.bits % 2 ^ 31 = 0 ↔ a.scaled = 0 := by
  rw [F32.magnitude_eq]
  unfold F32.scaled
  by_cases h0 : a.expo = 0
  · rw [if_pos h0, h0]; omega
  · rw [if_neg h0]
    have h1 : 0 < (2 ^ 23 + a.mant) * 2 ^ (a.expo - 1) :=
      Nat.mul_pos (by omega) (Nat.two_pow_pos _)
    have h2 : 0 < a.expo * 2 ^ 23 := Nat.mul_pos (by omega) (by norm_num)
    omega

/-- The order key agrees with the real values: for floats that are not NaN
the comparison `a < b` of the model holds exactly when the value of `a` is
below the value of `b` (stated for finite floats, whose value is `toRat`). -/
theorem F32.lt_iff_toRat_lt (a b : F32) (ha : a.isFinite = true) (hb : b.isFinite = true) :
    F32.lt a b = true ↔ a.toRat < b.toRat := by
  have hna : a.isNaN = false := by
    unfold F32.isNaN; unfold F32.isFinite at ha; simp at ha ⊢; intro h; exact absurd h ha
  have hnb : b.isNaN = false := by
    unfold F32.isNaN; unfold F32.isFinite at hb; simp at hb ⊢; intro h; exact absurd h hb
  unfold F32.lt F32.toRat F32.key
  rw [hna, hnb]
  simp only [Bool.not_false, Bool.true_and, decide_eq_true_eq]
  have hpos : (0 : ℚ) < 2 ^ 149 := by positivity
  rw [div_lt_div_iff_of_pos_right hpos]
  have hm := F32.magnitude_lt_iff a b
  have hm2 := F32.magnitude_lt_iff b a
  have hz1 := F32.magnitude_zero_iff a
  have hz2 := F32.magnitude_zero_iff b
  by_cases sa : a.sign = 0 <;> by_cases sb : b.sign = 0
  · rw [if_pos sa, if_pos sb, if_pos sa, if_pos sb]
    rw [Nat.cast_lt, Nat.cast_lt]
    exact hm
  · rw [if_pos sa, if_neg sb, if_pos sa, if_neg sb]
    constructor
    · intro h; omega
    · intro h
      have h1 : (0 : ℚ) ≤ (a.scaled : ℚ) := Nat.cast_nonneg _
      have h2 : (0 : ℚ) ≤ (b.scaled : ℚ) := Nat.cast_nonneg _
      linarith
  · rw [if_neg sa, if_pos sb, if_neg sa, if_pos sb]
    constructor
    · intro h
      have h3 : ¬ (a.scaled = 0 ∧ b.scaled = 0) := by
        rintro ⟨e1, e2⟩
        have := hz1.2 e1
        have := hz2.2 e2
        omega
      have h1 : (0 : ℚ) ≤ (a.scaled : ℚ) := Nat.cast_nonneg _
      have h2 : (0 : ℚ) ≤ (b.scaled : ℚ) := Nat.cast_nonneg _
      by_contra hcon
      apply h3
      have e1 : (a.scaled : ℚ) = 0 := by linarith
      have e2 : (b.scaled : ℚ) = 0 := by linarith
      exact ⟨Nat.cast_eq_zero.1 e1, Nat.cast_eq_zero.1 e2⟩
    · intro h
      by_contra hcon
      have e1 : a.bits % 2 ^ 31 = 0 := by omega
      have e2 : b.bits % 2 ^ 31 = 0 := by omega
      have g1 := hz1.1 e1
      have g2 := hz2.1 e2
      rw [g1, g2] at h
      simp at h
  · rw [if_neg sa, if_neg sb, if_neg sa, if_neg sb]
    rw [neg_lt_neg_iff, neg_lt_neg_iff, Nat.cast_lt, Nat.cast_lt]
    exact hm2

theorem F32.toRat_lit4_5 : F32.lit4_5.toRat = 9 / 2 := by
  have e1 : F32.lit4_5.sign = 0 := by decide
  have e2 : F32.lit4_5.scaled = (2 ^ 23 + 2 ^ 20) * 2 ^ 128 := by decide
  unfold F32.toRat
  rw [if_pos e1, e2]
  norm_num

theorem F32.toRat_lit4_499 :
    |F32.lit4_499.toRat - 4499 / 1000| ≤ 1 / 2 ^ 22 ∧ F32.lit4_499.toRat < 9 / 2 := by
  have e1 : F32.lit4_499.sign = 0 := by decide
  have e2 : F32.lit4_499.scaled = (2 ^ 23 + 1046479) * 2 ^ 128 := by decide
  unfold F32.toRat
  rw [if_pos e1, e2]
  constructor
  · rw [abs_le]
    constructor <;> norm_num
  · norm_num

theorem F32.toRat_lit4_501 :
    |F32.lit4_501.toRat - 4501 / 1000| ≤ 1 / 2 ^ 22 ∧ 9 / 2 < F32.lit4_501.toRat := by
  have e1 : F32.lit4_501.sign = 0 := by decide
  have e2 : F32.lit4_501.scaled = (2 ^ 23 + 1050673) * 2 ^ 128 := by decide
  unfold F32.toRat
  rw [if_pos e1, e2]
  constructor
  · rw [abs_le]
    constructor <;> norm_num
  · norm_num

/-! ## The depth clip -/

theorem F32.lit4_5_not_nan : F32.lit4_5.isNaN = false := by decide

theorem F32.lt_lit4_5_iff (z : F32) :
    F32.lt z F32.lit4_5 = true ↔ ¬ (F32.ge z F32.lit4_5 = true ∨ z.isNaN = true) := by
  unfold F32.lt F32.ge
  rw [F32.lit4_5_not_nan]
  cases hz : z.isNaN <;> simp

theorem storedDepth_eq (z : F32) :
    storedDepth z = if F32.ge z F32.lit4_5 = true ∨ z.isNaN = true then F32.zero else z := by
  unfold storedDepth
  by_cases h : F32.lt z F32.lit4_5 = true
  · have h2 := (F32.lt_lit4_5_iff z).1 h
    rw [if_pos h, if_neg h2]
  · have h2 : ¬¬ (F32.ge z F32.lit4_5 = true ∨ z.isNaN = true) := fun hn =>
      h ((F32.lt_lit4_5_iff z).2 hn)
    rw [if_neg h, if_pos (not_not.1 h2)]

/-! ## The pixel loops -/

theorem usub32_eq (a b : Nat) (ha : a < 2 ^ 32) (hb : b ≤ a) : usub32 a b = a - b := by
  unfold usub32
  have hb2 : b < 2 ^ 32 := lt_of_le_of_lt hb ha
  rw [Nat.mod_eq_of_lt ha, Nat.mod_eq_of_lt hb2]
  have : a + 2 ^ 32 - b = (a - b) + 2 ^ 32 := by omega
  rw [this, Nat.add_mod_right]
  exact Nat.mod_eq_of_lt (by omega)

theorem pixelIndex_eq (extent downsample i : Nat) (he : extent < 2 ^ 32)
    (hi : downsample * i < extent) :
    pixelIndex extent downsample i = extent - 1 - downsample * i ∧
      extent - 1 - downsample * i < extent := by
  unfold pixelIndex umul32
  have hm : downsample * i % 2 ^ 32 = downsample * i := Nat.mod_eq_of_lt (by omega)
  rw [hm, usub32_eq extent _ he (le_of_lt hi), usub32_eq _ 1 (by omega) (by omega)]
  omega

theorem loadPixel_eq_some (range : CMatrix) (height width downsample j i : Nat) (wf : CMatrix)
    (hr : pixelIndex height downsample i < range.rows)
    (hc : pixelIndex width downsample j < range.cols)
    (hi : i < wf.rows) (hj : j < wf.cols) :
    loadPixel range height width downsample j i wf =
      some { wf with
             coeff := fun r c =>
               if r = i ∧ c = j then
                 storedDepth (range.coeff (pixelIndex height downsample i)
                   (pixelIndex width downsample j))
               else wf.coeff r c } := by
  unfold loadPixel CMatrix.getCoeff CMatrix.setCoeff
  rw [if_pos ⟨hr, hc⟩]
  simp only []
  rw [if_pos ⟨hi, hj⟩]

theorem loadPixel_some_iff (range : CMatrix) (height width downsample j i : Nat)
    (wf : CMatrix) :
    (∃ wf1, loadPixel range height width downsample j i wf = some wf1) ↔
      (pixelIndex height downsample i < range.rows ∧
        pixelIndex width downsample j < range.cols ∧ i < wf.rows ∧ j < wf.cols) := by
  constructor
  · rintro ⟨wf1, h⟩
    unfold loadPixel CMatrix.getCoeff CMatrix.setCoeff at h
    by_cases h1 : pixelIndex height downsample i < range.rows ∧
        pixelIndex width downsample j < range.cols
    · rw [if_pos h1] at h
      simp only [] at h
      by_cases h2 : i < wf.rows ∧ j < wf.cols
      · exact ⟨h1.1, h1.2, h2.1, h2.2⟩
      · rw [if_neg h2] at h
        exact absurd h (by simp)
    · rw [if_neg h1] at h
      exact absurd h (by simp)
  · rintro ⟨h1, h2, h3, h4⟩
    exact ⟨_, loadPixel_eq_some range height width downsample j i wf h1 h2 h3 h4⟩

theorem foldlM_rows (range : CMatrix) (height width downsample j : Nat) (n : Nat)
    (wf : CMatrix)
    (hidx : ∀ i, i < n → pixelIndex height downsample i < range.rows)
    (hc : pixelIndex width downsample j < range.cols)
    (hn : n ≤ wf.rows) (hj : j < wf.cols) :
    ∃ wf1,
      (List.range n).foldlM
          (fun acc1 i => loadPixel range height width downsample j i acc1) wf = some wf1 ∧
      wf1.rows = wf.rows ∧ wf1.cols = wf.cols ∧
      ∀ r c, wf1.coeff r c =
        if r < n ∧ c = j then
          storedDepth (range.coeff (pixelIndex height downsample r)
            (pixelIndex width downsample j))
        else wf.coeff r c := by
  induction n with
  | zero => exact ⟨wf, rfl, rfl, rfl, by simp⟩
  | succ n ih =>
    obtain ⟨wfn, e, d1, d2, cf⟩ := ih (fun i hi => hidx i (by omega)) (by omega)
    rw [List.range_succ, List.foldlM_append, e]
    have hp := loadPixel_eq_some range height width downsample j n wfn (hidx n (by omega)) hc
      (by omega) (by omega)
    simp only [List.foldlM_cons, List.foldlM_nil, Option.bind_eq_bind, Option.some_bind, hp,
      Option.pure_def]
    refine ⟨_, rfl, d1, d2, ?_⟩
    intro r c
    simp only []
    by_cases h1 : r = n ∧ c = j
    · obtain ⟨rfl, rfl⟩ := h1
      simp
    · rw [if_neg h1, cf]
      by_cases h2 : r < n ∧ c = j
      · rw [if_pos h2, if_pos ⟨by omega, h2.2⟩]
      · rw [if_neg h2, if_neg]
        rintro ⟨h3, h4⟩
        rcases Nat.lt_succ_iff_lt_or_eq.1 h3 with h5 | h5
        · exact h2 ⟨h5, h4⟩
        · exact h1 ⟨h5, h4⟩

theorem loadDepth_inside (range : CMatrix) (downsample rows cols : Nat) (wf : CMatrix)
    (hrow : ∀ i, i < rows → pixelIndex (range.rows % 2 ^ 32) downsample i < range.rows)
    (hcol : ∀ j, j < cols → pixelIndex (range.cols % 2 ^ 32) downsample j < range.cols)
    (hr : rows ≤ wf.rows) (hc : cols ≤ wf.cols) :
    ∃ wf1, loadDepth range downsample rows cols wf = some wf1 ∧
      wf1.rows = wf.rows ∧ wf1.cols = wf.cols ∧
      ∀ r c, wf1.coeff r c =
        if r < rows ∧ c < cols then
          storedDepth (range.coeff (pixelIndex (range.rows % 2 ^ 32) downsample r)
            (pixelIndex (range.cols % 2 ^ 32) downsample c))
        else wf.coeff r c := by
  unfold loadDepth
  simp only []
  induction cols with
  | zero => exact ⟨wf, rfl, rfl, rfl, by simp⟩
  | succ n ih =>
    obtain ⟨wfn, e, d1, d2, cf⟩ := ih (fun j hj => hcol j (by omega)) (by omega)
    rw [List.range_succ, List.foldlM_append, e]
    obtain ⟨wf1, e1, g1, g2, cf1⟩ := foldlM_rows range (range.rows % 2 ^ 32)
      (range.cols % 2 ^ 32) downsample n rows wfn hrow (hcol n (by omega)) (by omega) (by omega)
    simp only [List.foldlM_cons, List.foldlM_nil, Option.bind_eq_bind, Option.some_bind, e1,
      Option.pure_def]
    refine ⟨wf1, rfl, g1.trans d1, g2.trans d2, ?_⟩
    intro r c
    rw [cf1, cf]
    by_cases h1 : r < rows ∧ c = n
    · obtain ⟨h1, rfl⟩ := h1
      simp [h1]
    · rw [if_neg h1]
      by_cases h2 : r < rows ∧ c < n
      · rw [if_pos h2, if_pos ⟨h2.1, by omega⟩]
      · rw [if_neg h2, if_neg]
        rintro ⟨h3, h4⟩
        rcases Nat.lt_succ_iff_lt_or_eq.1 h4 with h5 | h5
        · exact h2 ⟨h3, h5⟩
        · exact h1 ⟨h3, h5⟩

theorem imageFits_iff (downsample rows cols : Nat) (range : CMatrix) :
    imageFits downsample rows cols range = true ↔
      (range.rows < 2 ^ 32 ∧ range.cols < 2 ^ 32 ∧ downsample * (rows - 1) < range.rows ∧
        downsample * (cols - 1) < range.cols) := by
  unfold imageFits
  simp only [Bool.and_eq_true, decide_eq_true_eq]
  tauto

theorem bufferFits_iff (rows cols : Nat) (wf : CMatrix) :
    bufferFits rows cols wf = true ↔ (rows ≤ wf.rows ∧ cols ≤ wf.cols) := by
  unfold bufferFits
  simp only [Bool.and_eq_true, decide_eq_true_eq]

/-- The pixel loops on an image and a buffer that fit: every index expression
of line 339 takes its mirrored value inside the image, the loops run to their
end, and the buffer they leave holds the clipped mirrored samples on
`[0,rows) x [0,cols)` and is otherwise as before. -/
theorem loadDepth_fits (range : CMatrix) (downsample rows cols : Nat) (wf : CMatrix)
    (himg : imageFits downsample rows cols range = true)
    (hbuf : bufferFits rows cols wf = true) :
    ∃ wf1, loadDepth range downsample rows cols wf = some wf1 ∧
      wf1.rows = wf.rows ∧ wf1.cols = wf.cols ∧
      (∀ i j, i < rows → j < cols →
        pixelIndex (range.rows % 2 ^ 32) downsample i = range.rows - 1 - downsample * i ∧
        range.rows - 1 - downsample * i < range.rows ∧
        pixelIndex (range.cols % 2 ^ 32) downsample j = range.cols - 1 - downsample * j ∧
        range.cols - 1 - downsample * j < range.cols ∧
        wf1.coeff i j = storedDepth (range.coeff (range.rows - 1 - downsample * i)
          (range.cols - 1 - downsample * j))) ∧
      (∀ i j, ¬ (i < rows ∧ j < cols) → wf1.coeff i j = wf.coeff i j) := by
  obtain ⟨hH, hW, hrows, hcols⟩ := (imageFits_iff _ _ _ _).1 himg
  obtain ⟨hr, hc⟩ := (bufferFits_iff _ _ _).1 hbuf
  have hrow : ∀ i, i < rows →
      pixelIndex (range.rows % 2 ^ 32) downsample i = range.rows - 1 - downsample * i ∧
        range.rows - 1 - downsample * i < range.rows := by
    intro i hi
    rw [Nat.mod_eq_of_lt hH]
    exact pixelIndex_eq range.rows downsample i hH
      (lt_of_le_of_lt (Nat.mul_le_mul_left _ (by omega)) hrows)
  have hcol : ∀ j, j < cols →
      pixelIndex (range.cols % 2 ^ 32) downsample j = range.cols - 1 - downsample * j ∧
        range.cols - 1 - downsample * j < range.cols := by
    intro j hj
    rw [Nat.mod_eq_of_lt hW]
    exact pixelIndex_eq range.cols downsample j hW
      (lt_of_le_of_lt (Nat.mul_le_mul_left _ (by omega)) hcols)
  obtain ⟨wf1, e, d1, d2, cf⟩ := loadDepth_inside range downsample rows cols wf
    (fun i hi => by rw [(hrow i hi).1]; exact (hrow i hi).2)
    (fun j hj => by rw [(hcol j hj).1]; exact (hcol j hj).2) hr hc
  refine ⟨wf1, e, d1, d2, ?_, ?_⟩
  · intro i j hi hj
    refine ⟨(hrow i hi).1, (hrow i hi).2, (hcol j hj).1, (hcol j hj).2, ?_⟩
    rw [cf, if_pos ⟨hi, hj⟩, (hrow i hi).1, (hcol j hj).1]
  · intro i j hij
    rw [cf, if_neg hij]

/-! ## The skip loop -/

theorem getAsObservation_lt {dataset : List CObservation} {index : Nat} {alfa : CObservation}
    (h : getAsObservation dataset index = some alfa) : index < dataset.length := by
  unfold getAsObservation at h
  exact (List.getElem?_eq_some.1 h).1

theorem getAsObservation_drop {dataset : List CObservation} {index : Nat} {alfa : CObservation}
    (h : getAsObservation dataset index = some alfa) :
    dataset.drop index = alfa :: dataset.drop (index + 1) := by
  unfold getAsObservation at h
  obtain ⟨hlt, heq⟩ := List.getElem?_eq_some.1 h
  rw [List.drop_eq_getElem_cons hlt, heq]

theorem getAsObservation_some {dataset : List CObservation} {index : Nat}
    (h : index < dataset.length) : ∃ alfa, getAsObservation dataset index = some alfa := by
  unfold getAsObservation
  exact ⟨dataset[index], List.getElem?_eq_getElem h⟩

theorem skipLoop_spec (fuel : Nat) : ∀ (alfa : CObservation) (s : CDifodoDatasets),
    s.dataset.length < 2 ^ 32 →
    getAsObservation s.dataset s.rawlog_count = some alfa →
    s.dataset.length - s.rawlog_count ≤ fuel →
    (∃ q img, skipLoop fuel alfa s = .found img { s with rawlog_count := q } ∧
        s.rawlog_count ≤ q ∧ q < s.dataset.length ∧
        rangeScansAfter s.dataset s.rawlog_count
          = (q, img) :: rangeScansAfter s.dataset (q + 1)) ∨
    (skipLoop fuel alfa s
        = .finished { s with rawlog_count := s.dataset.length, dataset_finished := true } ∧
      rangeScansAfter s.dataset s.rawlog_count = []) := by
  induction fuel with
  | zero =>
    intro alfa s hsize hget hfuel
    have hlt := getAsObservation_lt hget
    omega
  | succ fuel ih =>
    intro alfa s hsize hget hfuel
    have hlt := getAsObservation_lt hget
    have hdrop := getAsObservation_drop hget
    cases alfa with
    | CObservation3DRangeScan img =>
      left
      refine ⟨s.rawlog_count, img, ?_, le_refl _, hlt, ?_⟩
      · simp [skipLoop]
      · unfold rangeScansAfter
        rw [hdrop]
        rfl
    | otherClass =>
      have hmod : (s.rawlog_count + 1) % 2 ^ 32 = s.rawlog_count + 1 :=
        Nat.mod_eq_of_lt (by omega)
      have hafter : rangeScansAfter s.dataset s.rawlog_count
          = rangeScansAfter s.dataset (s.rawlog_count + 1) := by
        unfold rangeScansAfter
        rw [hdrop]
        rfl
      by_cases hend : s.dataset.length ≤ s.rawlog_count + 1
      · right
        have heq : s.rawlog_count + 1 = s.dataset.length := by omega
        constructor
        · simp only [skipLoop, hmod]
          rw [if_pos hend, heq]
        · rw [hafter]
          unfold rangeScansAfter
          rw [List.drop_eq_nil_of_le hend]
          rfl
      · obtain ⟨alfa1, hget1⟩ := getAsObservation_some (not_le.1 hend)
        have hstep : skipLoop (fuel + 1) .otherClass s
            = skipLoop fuel alfa1 { s with rawlog_count := s.rawlog_count + 1 } := by
          simp only [skipLoop, hmod]
          rw [if_neg hend, hget1]
        rw [hstep, hafter]
        rcases ih alfa1 { s with rawlog_count := s.rawlog_count + 1 } hsize hget1
            (by simp only []; omega) with ⟨q, img, h1, h2, h3, h4⟩ | ⟨h1, h2⟩
        · left
          exact ⟨q, img, h1, by simp only [] at h2; omega, h3, h4⟩
        · right
          exact ⟨h1, h2⟩

/-! ## The list of range scans is what its name says -/

theorem rangeScansFrom_mem (records : List CObservation) : ∀ (position q : Nat) (img : CMatrix),
    (q, img) ∈ rangeScansFrom records position ↔
      position ≤ q ∧ records[q - position]? = some (.CObservation3DRangeScan img) := by
  induction records with
  | nil => intro position q img; simp [rangeScansFrom]
  | cons head rest ih =>
    intro position q img
    cases head with
    | CObservation3DRangeScan img0 =>
      simp only [rangeScansFrom, List.mem_cons, Prod.mk.injEq, ih]
      constructor
      · rintro (⟨rfl, rfl⟩ | ⟨h1, h2⟩)
        · simp
        · refine ⟨by omega, ?_⟩
          have : q - position = (q - (position + 1)) + 1 := by omega
          rw [this, List.getElem?_cons_succ]
          exact h2
      · rintro ⟨h1, h2⟩
        by_cases hq : q = position
        · subst hq
          simp only [Nat.sub_self, List.getElem?_cons_zero, Option.some.injEq,
            CObservation.CObservation3DRangeScan.injEq] at h2
          exact Or.inl ⟨rfl, h2.symm⟩
        · right
          refine ⟨by omega, ?_⟩
          have : q - position = (q - (position + 1)) + 1 := by omega
          rw [this, List.getElem?_cons_succ] at h2
          exact h2
    | otherClass =>
      simp only [rangeScansFrom, ih]
      constructor
      · rintro ⟨h1, h2⟩
        refine ⟨by omega, ?_⟩
        have : q - position = (q - (position + 1)) + 1 := by omega
        rw [this, List.getElem?_cons_succ]
        exact h2
      · rintro ⟨h1, h2⟩
        by_cases hq : q = position
        · subst hq
          simp at h2
        · refine ⟨by omega, ?_⟩
          have : q - position = (q - (position + 1)) + 1 := by omega
          rw [this, List.getElem?_cons_succ] at h2
          exact h2

/-- The list `rangeScansAfter dataset p` holds exactly the range-scan records
at positions `>= p`, each with its position and range image. -/
theorem rangeScansAfter_mem (dataset : List CObservation) (p q : Nat) (img : CMatrix) :
    (q, img) ∈ rangeScansAfter dataset p ↔
      p ≤ q ∧ getAsObservation dataset q = some (.CObservation3DRangeScan img) := by
  unfold rangeScansAfter getAsObservation
  rw [rangeScansFrom_mem]
  constructor
  · rintro ⟨h1, h2⟩
    rw [List.getElem?_drop] at h2
    have : p + (q - p) = q := by omega
    rw [this] at h2
    exact ⟨h1, h2⟩
  · rintro ⟨h1, h2⟩
    refine ⟨h1, ?_⟩
    rw [List.getElem?_drop]
    have : p + (q - p) = q := by omega
    rw [this]
    exact h2

theorem rangeScansFrom_sorted (records : List CObservation) : ∀ (position : Nat),
    (rangeScansFrom records position).Pairwise (fun a b => a.1 < b.1) := by
  induction records with
  | nil => intro position; exact List.Pairwise.nil
  | cons head rest ih =>
    intro position
    cases head with
    | CObservation3DRangeScan img0 =>
      rw [rangeScansFrom, List.pairwise_cons]
      refine ⟨?_, ih (position + 1)⟩
      rintro ⟨q, img⟩ hmem
      have := ((rangeScansFrom_mem rest (position + 1) q img).1 hmem).1
      show position < q
      omega
    | otherClass =>
      rw [rangeScansFrom]
      exact ih (position + 1)

/-- The list `rangeScansAfter dataset p` is in log order: positions strictly
increase along it. -/
theorem rangeScansAfter_sorted (dataset : List CObservation) (p : Nat) :
    (rangeScansAfter dataset p).Pairwise (fun a b => a.1 < b.1) :=
  rangeScansFrom_sorted _ p

/-! ## The camera loop -/

theorem Frame.refl (s : CDifodoDatasets) : Frame s s := ⟨_, _, _, rfl⟩

theorem Frame.trans {s s1 s2 : CDifodoDatasets} (h1 : Frame s s1) (h2 : Frame s1 s2) :
    Frame s s2 := by
  obtain ⟨a, b, f, rfl⟩ := h1
  obtain ⟨a1, b1, f1, rfl⟩ := h2
  exact ⟨a1, b1, f1, rfl⟩

theorem Frame.fields {s s1 : CDifodoDatasets} (h : Frame s s1) :
    s1.dataset = s.dataset ∧ s1.pyr = s.pyr ∧ s1.rows = s.rows ∧ s1.cols = s.cols ∧
      s1.downsample = s.downsample ∧ s1.fast_pyramid = s.fast_pyramid := by
  obtain ⟨a, b, f, rfl⟩ := h
  exact ⟨rfl, rfl, rfl, rfl, rfl, rfl⟩

theorem Frame.setCount (s : CDifodoDatasets) (q : Nat) :
    Frame s { s with rawlog_count := q } := ⟨_, _, _, rfl⟩

theorem consume_eq (c : Nat) (img wf : CMatrix) (s : CDifodoDatasets)
    (hsize : s.dataset.length < 2 ^ 32) (hlt : s.rawlog_count < s.dataset.length)
    (hwf : loadDepth img s.downsample s.rows s.cols (s.depth_wf c) = some wf) :
    consume c img s =
      some { s with
        depth_wf := fun c1 => if c1 = c then wf else s.depth_wf c1
        rawlog_count := s.rawlog_count + 1
        dataset_finished :=
          s.dataset_finished || decide (s.dataset.length ≤ s.rawlog_count + 1) } := by
  have hmod : (s.rawlog_count + 1) % 2 ^ 32 = s.rawlog_count + 1 :=
    Nat.mod_eq_of_lt (by omega)
  unfold consume
  rw [hwf]
  simp only [hmod]
  by_cases hend : s.dataset.length ≤ s.rawlog_count + 1
  · rw [if_pos hend]
    simp [hend]
  · rw [if_neg hend]
    simp [hend]

theorem consume_none (c : Nat) (img : CMatrix) (s : CDifodoDatasets)
    (hwf : loadDepth img s.downsample s.rows s.cols (s.depth_wf c) = none) :
    consume c img s = none := by
  unfold consume
  rw [hwf]

theorem consume_frame (c : Nat) (img : CMatrix) (s s2 : CDifodoDatasets)
    (h : consume c img s = some s2) : Frame s s2 := by
  unfold consume at h
  cases hwf : loadDepth img s.downsample s.rows s.cols (s.depth_wf c) with
  | none => rw [hwf] at h; exact absurd h (by simp)
  | some wf =>
    rw [hwf] at h
    simp only [] at h
    split at h
    · exact ⟨_, _, _, (Option.some.inj h).symm⟩
    · exact ⟨_, _, _, (Option.some.inj h).symm⟩

theorem skipLoop_frame (fuel : Nat) : ∀ (alfa : CObservation) (s : CDifodoDatasets),
    Frame s (skipLoop fuel alfa s).state := by
  induction fuel with
  | zero =>
    intro alfa s
    cases alfa <;> exact Frame.refl s
  | succ fuel ih =>
    intro alfa s
    cases alfa with
    | CObservation3DRangeScan img => exact Frame.refl s
    | otherClass =>
      rw [skipLoop]
      simp only []
      by_cases hend : s.dataset.length ≤ (s.rawlog_count + 1) % 2 ^ 32
      · rw [if_pos hend]
        exact ⟨_, _, _, rfl⟩
      · rw [if_neg hend]
        cases hget : getAsObservation s.dataset ((s.rawlog_count + 1) % 2 ^ 32) with
        | none => exact ⟨_, _, _, rfl⟩
        | some alfa1 =>
          exact Frame.trans (Frame.setCount s _) (ih alfa1 _)

theorem cameraLoop_frame (n : Nat) : ∀ (c : Nat) (s : CDifodoDatasets),
    Frame s (cameraLoop n c s).2 := by
  induction n with
  | zero => intro c s; exact Frame.refl s
  | succ n ih =>
    intro c s
    rw [cameraLoop]
    cases hget : getAsObservation s.dataset s.rawlog_count with
    | none => exact Frame.refl s
    | some alfa =>
      simp only []
      have h := skipLoop_frame (2 ^ 32) alfa s
      cases hskip : skipLoop (2 ^ 32) alfa s with
      | found img s1 =>
        rw [hskip] at h
        simp only []
        cases hcon : consume c img s1 with
        | none => exact h
        | some s2 =>
          exact Frame.trans h (Frame.trans (consume_frame c img s1 s2 hcon) (ih _ _))
      | finished s1 => rw [hskip] at h; exact h
      | threw s1 => rw [hskip] at h; exact h
      | spinning s1 => rw [hskip] at h; exact h

theorem cameraLoop_stop (n c : Nat) (s : CDifodoDatasets)
    (h : s.dataset.length ≤ s.rawlog_count) :
    cameraLoop (n + 1) c s = (.indexOutOfBounds, s) := by
  have hget : getAsObservation s.dataset s.rawlog_count = none := by
    unfold getAsObservation
    exact List.getElem?_eq_none h
  rw [cameraLoop, hget]

theorem rangeScansAfter_nil_of_le (dataset : List CObservation) (p : Nat)
    (h : dataset.length ≤ p) : rangeScansAfter dataset p = [] := by
  unfold rangeScansAfter
  rw [List.drop_eq_nil_of_le h]
  rfl

theorem served_eq (c : Nat) (img wf : CMatrix) (s : CDifodoDatasets) (q : Nat)
    (hsize : s.dataset.length < 2 ^ 32) (hq : q < s.dataset.length)
    (hwf : loadDepth img s.downsample s.rows s.cols (s.depth_wf c) = some wf) :
    consume c img { s with rawlog_count := q } = some (servedAt c wf q s) :=
  consume_eq c img wf { s with rawlog_count := q } hsize hq hwf

theorem servedAt_dataset (c : Nat) (wf : CMatrix) (q : Nat) (s : CDifodoDatasets) :
    (servedAt c wf q s).dataset = s.dataset := rfl

theorem servedAt_count (c : Nat) (wf : CMatrix) (q : Nat) (s : CDifodoDatasets) :
    (servedAt c wf q s).rawlog_count = q + 1 := rfl

theorem servedAt_finished (c : Nat) (wf : CMatrix) (q : Nat) (s : CDifodoDatasets) :
    (servedAt c wf q s).dataset_finished
      = (s.dataset_finished || decide (s.dataset.length ≤ q + 1)) := rfl

theorem servedAt_finished_of_lt (c : Nat) (wf : CMatrix) (q : Nat) (s : CDifodoDatasets)
    (h : q + 1 < s.dataset.length) :
    (servedAt c wf q s).dataset_finished = s.dataset_finished := by
  rw [servedAt_finished]
  have : ¬ s.dataset.length ≤ q + 1 := by omega
  simp [this]

theorem servedAt_depth_wf (c : Nat) (wf : CMatrix) (q : Nat) (s : CDifodoDatasets) (c1 : Nat) :
    (servedAt c wf q s).depth_wf c1 = if c1 = c then wf else s.depth_wf c1 := rfl

/-- One iteration of the camera loop from inside the log: either a range scan
is found at some position `q >= rawlog_count`, and the loop goes on from the
state with camera `c` served when the pixel loops stay inside their matrices
or is left by an undefined access when they do not; or no range scan is left
and the skip loop returns with `dataset_finished` set. -/
theorem cameraLoop_step (n c : Nat) (s : CDifodoDatasets)
    (hsize : s.dataset.length < 2 ^ 32) (hlt : s.rawlog_count < s.dataset.length) :
    (∃ q img, s.rawlog_count ≤ q ∧ q < s.dataset.length ∧
        rangeScansAfter s.dataset s.rawlog_count
          = (q, img) :: rangeScansAfter s.dataset (q + 1) ∧
        ((∃ wf, loadDepth img s.downsample s.rows s.cols (s.depth_wf c) = some wf ∧
            cameraLoop (n + 1) c s = cameraLoop n (c + 1) (servedAt c wf q s)) ∨
          (loadDepth img s.downsample s.rows s.cols (s.depth_wf c) = none ∧
            cameraLoop (n + 1) c s
              = (.undefinedAccess, { s with rawlog_count := q })))) ∨
    (rangeScansAfter s.dataset s.rawlog_count = [] ∧
      cameraLoop (n + 1) c s
        = (.returned,
            { s with rawlog_count := s.dataset.length, dataset_finished := true })) := by
  obtain ⟨alfa, hget⟩ := getAsObservation_some hlt
  have hfuel : s.dataset.length - s.rawlog_count ≤ 2 ^ 32 := by omega
  rcases skipLoop_spec (2 ^ 32) alfa s hsize hget hfuel with ⟨q, img, h1, h2, h3, h4⟩ | ⟨h1, h2⟩
  · left
    refine ⟨q, img, h2, h3, h4, ?_⟩
    cases hwf : loadDepth img s.downsample s.rows s.cols (s.depth_wf c) with
    | none =>
      right
      refine ⟨rfl, ?_⟩
      rw [cameraLoop, hget]
      simp only []
      rw [h1]
      simp only []
      rw [consume_none c img { s with rawlog_count := q } hwf]
    | some wf =>
      left
      refine ⟨wf, rfl, ?_⟩
      rw [cameraLoop, hget]
      simp only []
      rw [h1]
      simp only []
      rw [served_eq c img wf s q hsize h3 hwf]
  · right
    refine ⟨h2, ?_⟩
    rw [cameraLoop, hget]
    simp only []
    rw [h1]

/-- One iteration of the camera loop when the buffer of camera `c` and the
range images still to be read fit: the undefined access is excluded. -/
theorem cameraLoop_next (n c : Nat) (s : CDifodoDatasets)
    (hsize : s.dataset.length < 2 ^ 32) (hlt : s.rawlog_count < s.dataset.length)
    (hbuf : ∀ k, k < n + 1 → bufferFits s.rows s.cols (s.depth_wf (c + k)) = true)
    (himg : ∀ e, e ∈ (rangeScansAfter s.dataset s.rawlog_count).take (n + 1) →
      imageFits s.downsample s.rows s.cols e.2 = true) :
    (∃ q img wf, s.rawlog_count ≤ q ∧ q < s.dataset.length ∧
        rangeScansAfter s.dataset s.rawlog_count
          = (q, img) :: rangeScansAfter s.dataset (q + 1) ∧
        loadDepth img s.downsample s.rows s.cols (s.depth_wf c) = some wf ∧
        cameraLoop (n + 1) c s = cameraLoop n (c + 1) (servedAt c wf q s) ∧
        (∀ k, k < n →
          bufferFits (servedAt c wf q s).rows (servedAt c wf q s).cols
            ((servedAt c wf q s).depth_wf (c + 1 + k)) = true) ∧
        (∀ e, e ∈ (rangeScansAfter (servedAt c wf q s).dataset
            (servedAt c wf q s).rawlog_count).take n →
          imageFits (servedAt c wf q s).downsample (servedAt c wf q s).rows
            (servedAt c wf q s).cols e.2 = true)) ∨
    (rangeScansAfter s.dataset s.rawlog_count = [] ∧
      cameraLoop (n + 1) c s
        = (.returned,
            { s with rawlog_count := s.dataset.length, dataset_finished := true })) := by
  rcases cameraLoop_step n c s hsize hlt with ⟨q, img, h1, h2, h3, h4⟩ | h
  · left
    have hi : imageFits s.downsample s.rows s.cols img = true := by
      apply himg (q, img)
      rw [h3]
      simp
    have hb : bufferFits s.rows s.cols (s.depth_wf c) = true := by
      have := hbuf 0 (by omega)
      rwa [Nat.add_zero] at this
    obtain ⟨wf, e, _⟩ := loadDepth_fits img s.downsample s.rows s.cols (s.depth_wf c) hi hb
    rcases h4 with ⟨wf1, e1, e2⟩ | ⟨e1, _⟩
    · have : wf1 = wf := Option.some.inj (e1.symm.trans e)
      subst this
      refine ⟨q, img, wf1, h1, h2, h3, e1, e2, ?_, ?_⟩
      · intro k hk
        show bufferFits s.rows s.cols ((servedAt c wf1 q s).depth_wf (c + 1 + k)) = true
        rw [servedAt_depth_wf, if_neg (by omega)]
        have := hbuf (k + 1) (by omega)
        have hidx : c + (k + 1) = c + 1 + k := by omega
        rwa [hidx] at this
      · intro e3 he3
        apply himg e3
        rw [h3, List.take_succ_cons]
        exact List.mem_cons_of_mem _ he3
    · rw [e] at e1
      exact absurd e1 (by simp)
  · exact Or.inr h

theorem cameraLoop_mono (n : Nat) : ∀ (c : Nat) (s : CDifodoDatasets),
    s.dataset.length < 2 ^ 32 →
    s.rawlog_count ≤ (cameraLoop n c s).2.rawlog_count ∧
      (s.dataset_finished = true → (cameraLoop n c s).2.dataset_finished = true) := by
  induction n with
  | zero => intro c s _; exact ⟨le_refl _, fun h => h⟩
  | succ n ih =>
    intro c s hsize
    by_cases hlt : s.rawlog_count < s.dataset.length
    · rcases cameraLoop_step n c s hsize hlt with ⟨q, img, h1, h2, _, h4⟩ | ⟨_, h2⟩
      · rcases h4 with ⟨wf, _, h4⟩ | ⟨_, h4⟩
        · rw [h4]
          have h := ih (c + 1) (servedAt c wf q s) hsize
          rw [servedAt_count, servedAt_finished] at h
          refine ⟨by omega, fun hf => h.2 ?_⟩
          rw [hf]
          rfl
        · rw [h4]
          exact ⟨h1, fun h => h⟩
      · rw [h2]
        exact ⟨le_of_lt hlt, fun _ => rfl⟩
    · rw [cameraLoop_stop n c s (not_lt.1 hlt)]
      exact ⟨le_refl _, fun h => h⟩

theorem cameraLoop_returned (n : Nat) : ∀ (c : Nat) (s s1 : CDifodoDatasets),
    s.dataset.length < 2 ^ 32 →
    s.rawlog_count ≤ s.dataset.length →
    (s.rawlog_count = s.dataset.length → s.dataset_finished = true) →
    cameraLoop n c s = (.returned, s1) →
    s1.rawlog_count ≤ s.dataset.length ∧
      (s1.dataset_finished = true ↔
        (s.dataset_finished = true ∨ s1.rawlog_count = s.dataset.length)) := by
  induction n with
  | zero =>
    intro c s s1 _ hle hinv hret
    have : s1 = s := (congrArg Prod.snd hret).symm
    subst this
    refine ⟨hle, fun h => Or.inl h, fun h => ?_⟩
    rcases h with h | h
    · exact h
    · exact hinv h
  | succ n ih =>
    intro c s s1 hsize hle hinv hret
    by_cases hlt : s.rawlog_count < s.dataset.length
    · rcases cameraLoop_step n c s hsize hlt with ⟨q, img, h1, h2, _, h4⟩ | ⟨_, h2⟩
      · rcases h4 with ⟨wf, _, h4⟩ | ⟨_, h4⟩
        · rw [h4] at hret
          have hm := (cameraLoop_mono n (c + 1) (servedAt c wf q s) hsize).1
          rw [hret, servedAt_count] at hm
          have h := ih (c + 1) (servedAt c wf q s) s1 hsize
            (by rw [servedAt_count, servedAt_dataset]; omega)
            (by
              rw [servedAt_count, servedAt_dataset, servedAt_finished]
              intro heq
              have : s.dataset.length ≤ q + 1 := by omega
              simp [this]) hret
          rw [servedAt_dataset, servedAt_finished] at h
          simp only [] at hm
          refine ⟨h.1, ?_⟩
          rw [h.2]
          constructor
          · rintro (h5 | h5)
            · rw [Bool.or_eq_true, decide_eq_true_eq] at h5
              rcases h5 with h5 | h5
              · exact Or.inl h5
              · right; omega
            · exact Or.inr h5
          · rintro (h5 | h5)
            · left; rw [h5]; rfl
            · exact Or.inr h5
        · rw [h4] at hret
          have h0 : Exit.undefinedAccess = Exit.returned := congrArg Prod.fst hret
          exact absurd h0 (by decide)
      · rw [h2] at hret
        have : s1 = { s with rawlog_count := s.dataset.length, dataset_finished := true } :=
          (congrArg Prod.snd hret).symm
        subst this
        exact ⟨le_refl _, by simp⟩
    · rw [cameraLoop_stop n c s (not_lt.1 hlt)] at hret
      have h0 : Exit.indexOutOfBounds = Exit.returned := congrArg Prod.fst hret
      exact absurd h0 (by decide)

theorem cameraLoop_defined (n : Nat) : ∀ (c : Nat) (s : CDifodoDatasets),
    s.dataset.length < 2 ^ 32 →
    (∀ k, k < n → bufferFits s.rows s.cols (s.depth_wf (c + k)) = true) →
    (∀ e, e ∈ (rangeScansAfter s.dataset s.rawlog_count).take n →
      imageFits s.downsample s.rows s.cols e.2 = true) →
    (cameraLoop n c s).1 ≠ .undefinedAccess := by
  induction n with
  | zero => intro c s _ _ _; exact (by decide : Exit.returned ≠ Exit.undefinedAccess)
  | succ n ih =>
    intro c s hsize hbuf himg
    by_cases hlt : s.rawlog_count < s.dataset.length
    · rcases cameraLoop_next n c s hsize hlt hbuf himg with
        ⟨q, img, wf, _, _, _, _, h5, h6, h7⟩ | ⟨_, h2⟩
      · rw [h5]
        exact ih (c + 1) (servedAt c wf q s) hsize h6 h7
      · rw [h2]
        exact (by decide : Exit.returned ≠ Exit.undefinedAccess)
    · rw [cameraLoop_stop n c s (not_lt.1 hlt)]
      exact (by decide : Exit.indexOutOfBounds ≠ Exit.undefinedAccess)

theorem cameraLoop_below (n : Nat) : ∀ (c : Nat) (s : CDifodoDatasets),
    s.dataset.length < 2 ^ 32 →
    ∀ c1, c1 < c → (cameraLoop n c s).2.depth_wf c1 = s.depth_wf c1 := by
  induction n with
  | zero => intro c s _ c1 _; rfl
  | succ n ih =>
    intro c s hsize c1 hc1
    by_cases hlt : s.rawlog_count < s.dataset.length
    · rcases cameraLoop_step n c s hsize hlt with ⟨q, img, _, _, _, h4⟩ | ⟨_, h2⟩
      · rcases h4 with ⟨wf, _, h4⟩ | ⟨_, h4⟩
        · rw [h4, ih (c + 1) (servedAt c wf q s) hsize c1 (by omega), servedAt_depth_wf,
            if_neg (by omega)]
        · rw [h4]
      · rw [h2]
    · rw [cameraLoop_stop n c s (not_lt.1 hlt)]

/-- Camera `c + k` is served from the `(k+1)`-th range scan at or after
`rawlog_count` whenever that scan exists, `k < n`, and the buffers and range
images of the cycle fit. -/
theorem cameraLoop_served (n : Nat) : ∀ (c : Nat) (s : CDifodoDatasets) (k q : Nat)
    (img : CMatrix),
    s.dataset.length < 2 ^ 32 →
    k < n →
    (rangeScansAfter s.dataset s.rawlog_count)[k]? = some (q, img) →
    (∀ k1, k1 < n → bufferFits s.rows s.cols (s.depth_wf (c + k1)) = true) →
    (∀ e, e ∈ (rangeScansAfter s.dataset s.rawlog_count).take n →
      imageFits s.downsample s.rows s.cols e.2 = true) →
    loadDepth img s.downsample s.rows s.cols (s.depth_wf (c + k))
      = some ((cameraLoop n c s).2.depth_wf (c + k)) := by
  induction n with
  | zero => intro c s k q img _ hk; exact absurd hk (Nat.not_lt_zero _)
  | succ n ih =>
    intro c s k q img hsize hk hrec hbuf himg
    have hlt : s.rawlog_count < s.dataset.length := by
      by_contra hge
      rw [rangeScansAfter_nil_of_le _ _ (not_lt.1 hge)] at hrec
      simp at hrec
    rcases cameraLoop_next n c s hsize hlt hbuf himg with
      ⟨q0, img0, wf, _, _, h3, h4, h5, h6, h7⟩ | ⟨h1, _⟩
    · rw [h5]
      rw [h3] at hrec
      cases k with
      | zero =>
        simp only [List.getElem?_cons_zero, Option.some.injEq, Prod.mk.injEq] at hrec
        obtain ⟨rfl, rfl⟩ := hrec
        rw [Nat.add_zero, cameraLoop_below n (c + 1) (servedAt c wf q0 s) hsize c (by omega),
          servedAt_depth_wf, if_pos rfl]
        exact h4
      | succ k =>
        simp only [List.getElem?_cons_succ] at hrec
        have hidx : c + (k + 1) = c + 1 + k := by omega
        have := ih (c + 1) (servedAt c wf q0 s) k q img hsize (by omega) hrec h6 h7
        rw [servedAt_depth_wf, if_neg (by omega)] at this
        rw [hidx]
        exact this
    · rw [h1] at hrec
      simp at hrec

theorem cameraLoop_full (n : Nat) : ∀ (c : Nat) (s : CDifodoDatasets) (q : Nat) (img : CMatrix),
    s.dataset.length < 2 ^ 32 →
    (rangeScansAfter s.dataset s.rawlog_count)[n]? = some (q, img) →
    q + 1 < s.dataset.length →
    (∀ k, k < n + 1 → bufferFits s.rows s.cols (s.depth_wf (c + k)) = true) →
    (∀ e, e ∈ (rangeScansAfter s.dataset s.rawlog_count).take (n + 1) →
      imageFits s.downsample s.rows s.cols e.2 = true) →
    ∃ s1, cameraLoop (n + 1) c s = (.returned, s1) ∧ s1.rawlog_count = q + 1 ∧
      s1.dataset_finished = s.dataset_finished ∧
      (∀ c1, (c1 < c ∨ c + n < c1) → s1.depth_wf c1 = s.depth_wf c1) := by
  induction n with
  | zero =>
    intro c s q img hsize hq hmore hbuf himg
    have hlt : s.rawlog_count < s.dataset.length := by
      by_contra hge
      rw [rangeScansAfter_nil_of_le _ _ (not_lt.1 hge)] at hq
      simp at hq
    rcases cameraLoop_next 0 c s hsize hlt hbuf himg with
      ⟨q0, img0, wf, _, _, h3, _, h5, _, _⟩ | ⟨h1, _⟩
    · rw [h3] at hq
      simp only [List.getElem?_cons_zero, Option.some.injEq, Prod.mk.injEq] at hq
      obtain ⟨rfl, rfl⟩ := hq
      refine ⟨servedAt c wf q0 s, h5, rfl, servedAt_finished_of_lt c wf q0 s hmore, ?_⟩
      intro c1 hc1
      rw [servedAt_depth_wf, if_neg (by omega)]
    · rw [h1] at hq
      simp at hq
  | succ n ih =>
    intro c s q img hsize hq hmore hbuf himg
    have hlt : s.rawlog_count < s.dataset.length := by
      by_contra hge
      rw [rangeScansAfter_nil_of_le _ _ (not_lt.1 hge)] at hq
      simp at hq
    rcases cameraLoop_next (n + 1) c s hsize hlt hbuf himg with
      ⟨q0, img0, wf, _, _, h3, _, h5, h6, h7⟩ | ⟨h1, _⟩
    · rw [h3] at hq
      simp only [List.getElem?_cons_succ] at hq
      have hq0 : q0 + 1 < s.dataset.length := by
        by_contra hge
        rw [rangeScansAfter_nil_of_le _ _ (not_lt.1 hge)] at hq
        simp at hq
      obtain ⟨s1, e1, e2, e3, e5⟩ :=
        ih (c + 1) (servedAt c wf q0 s) q img hsize hq hmore h6 h7
      refine ⟨s1, h5.trans e1, e2, e3.trans (servedAt_finished_of_lt c wf q0 s hq0), ?_⟩
      intro c1 hc1
      rw [e5 c1 (by omega), servedAt_depth_wf, if_neg (by omega)]
    · rw [h1] at hq
      simp at hq

theorem cameraLoop_truncated (n : Nat) : ∀ (c : Nat) (s : CDifodoDatasets),
    s.dataset.length < 2 ^ 32 →
    s.rawlog_count < s.dataset.length →
    (rangeScansAfter s.dataset s.rawlog_count).length < n →
    (∀ q img, (rangeScansAfter s.dataset s.rawlog_count).getLast? = some (q, img) →
      q + 1 < s.dataset.length) →
    (∀ k, k < n → bufferFits s.rows s.cols (s.depth_wf (c + k)) = true) →
    (∀ e, e ∈ (rangeScansAfter s.dataset s.rawlog_count).take n →
      imageFits s.downsample s.rows s.cols e.2 = true) →
    ∃ s1, cameraLoop n c s = (.returned, s1) ∧ s1.dataset_finished = true ∧
      s1.rawlog_count = s.dataset.length ∧
      (∀ c1, (c1 < c ∨ c + (rangeScansAfter s.dataset s.rawlog_count).length ≤ c1) →
        s1.depth_wf c1 = s.depth_wf c1) := by
  induction n with
  | zero => intro c s _ _ h; exact absurd h (Nat.not_lt_zero _)
  | succ n ih =>
    intro c s hsize hlt hfew hlast hbuf himg
    rcases cameraLoop_next n c s hsize hlt hbuf himg with
      ⟨q0, img0, wf, _, _, h3, _, h5, h6, h7⟩ | ⟨h1, h2⟩
    · have hq0 : q0 + 1 < s.dataset.length := by
        by_cases hnil : rangeScansAfter s.dataset (q0 + 1) = []
        · apply hlast q0 img0
          rw [h3, hnil]
          rfl
        · by_contra hge
          exact hnil (rangeScansAfter_nil_of_le _ _ (not_lt.1 hge))
      have hfew1 : (rangeScansAfter s.dataset (q0 + 1)).length < n := by
        rw [h3] at hfew
        simpa using hfew
      have hlast1 : ∀ q img, (rangeScansAfter s.dataset (q0 + 1)).getLast? = some (q, img) →
          q + 1 < s.dataset.length := by
        intro q img hq
        apply hlast q img
        rw [h3]
        cases hrest : rangeScansAfter s.dataset (q0 + 1) with
        | nil => rw [hrest] at hq; simp at hq
        | cons a rest =>
          rw [hrest] at hq
          rw [List.getLast?_cons_cons]
          exact hq
      obtain ⟨s1, e1, e2, e3, e5⟩ :=
        ih (c + 1) (servedAt c wf q0 s) hsize hq0 hfew1 hlast1 h6 h7
      refine ⟨s1, h5.trans e1, e2, e3, ?_⟩
      intro c1 hc1
      rw [h3] at hc1
      simp only [List.length_cons] at hc1
      rw [e5 c1 (by
        rw [servedAt_dataset, servedAt_count]
        omega), servedAt_depth_wf, if_neg (by omega)]
    · refine ⟨_, h2, rfl, rfl, ?_⟩
      intro c1 _
      rfl

/-- When fewer than `n` range scans remain, buffers and images fit, and the
last range scan is the last record of the log, the camera loop consumes it,
sets `dataset_finished`, and its next iteration asks for the record at index
`dataset.size()`: the loop is left by the exception of `getAsObservation`. -/
theorem cameraLoop_overrun (n : Nat) : ∀ (c : Nat) (s : CDifodoDatasets),
    s.dataset.length < 2 ^ 32 →
    s.rawlog_count < s.dataset.length →
    (rangeScansAfter s.dataset s.rawlog_count).length < n →
    (∃ q img, (rangeScansAfter s.dataset s.rawlog_count).getLast? = some (q, img) ∧
      q + 1 = s.dataset.length) →
    (∀ k, k < n → bufferFits s.rows s.cols (s.depth_wf (c + k)) = true) →
    (∀ e, e ∈ (rangeScansAfter s.dataset s.rawlog_count).take n →
      imageFits s.downsample s.rows s.cols e.2 = true) →
    (cameraLoop n c s).1 = .indexOutOfBounds ∧
      (cameraLoop n c s).2.dataset_finished = true ∧
      (cameraLoop n c s).2.rawlog_count = s.dataset.length := by
  induction n with
  | zero => intro c s _ _ h; exact absurd h (Nat.not_lt_zero _)
  | succ n ih =>
    intro c s hsize hlt hfew hlast hbuf himg
    obtain ⟨q, img, hq, hend⟩ := hlast
    rcases cameraLoop_next n c s hsize hlt hbuf himg with
      ⟨q0, img0, wf, _, _, h3, _, h5, h6, h7⟩ | ⟨h1, _⟩
    · rw [h5]
      cases hrest : rangeScansAfter s.dataset (q0 + 1) with
      | nil =>
        rw [h3, hrest] at hq hfew
        simp only [List.getLast?_singleton, Option.some.injEq, Prod.mk.injEq] at hq
        obtain ⟨rfl, rfl⟩ := hq
        simp only [List.length_singleton] at hfew
        obtain ⟨m, rfl⟩ : ∃ m, n = m + 1 := ⟨n - 1, by omega⟩
        rw [cameraLoop_stop m (c + 1) (servedAt c wf q0 s)
          (by rw [servedAt_dataset, servedAt_count]; omega)]
        refine ⟨rfl, ?_, ?_⟩
        · show (servedAt c wf q0 s).dataset_finished = true
          rw [servedAt_finished]
          have : s.dataset.length ≤ q0 + 1 := by omega
          simp [this]
        · show (servedAt c wf q0 s).rawlog_count = s.dataset.length
          rw [servedAt_count, hend]
      | cons a rest =>
        have hq0 : q0 + 1 < s.dataset.length := by
          by_contra hge
          rw [rangeScansAfter_nil_of_le _ _ (not_lt.1 hge)] at hrest
          exact absurd hrest (by simp)
        have hfew1 : (rangeScansAfter s.dataset (q0 + 1)).length < n := by
          rw [h3] at hfew
          simpa using hfew
        have hlast1 : ∃ q1 img1,
            (rangeScansAfter s.dataset (q0 + 1)).getLast? = some (q1, img1) ∧
              q1 + 1 = s.dataset.length := by
          refine ⟨q, img, ?_, hend⟩
          rw [h3, hrest, List.getLast?_cons_cons] at hq
          rw [hrest]
          exact hq
        exact ih (c + 1) (servedAt c wf q0 s) hsize hq0 hfew1 hlast1 h6 h7
    · rw [h1] at hq
      simp at hq

/-! ## Claims on `loadFrame` -/

theorem mem_take_of_getElem? {α : Type} (l : List α) (n k : Nat) (a : α) (hk : k < n)
    (h : l[k]? = some a) : a ∈ l.take n := by
  have h1 : (l.take n)[k]? = some a := by
    rw [List.getElem?_take_of_lt hk]
    exact h
  exact List.getElem?_mem h1

theorem loadFrame_defined (NC : Nat) (s : CDifodoDatasets)
    (hsize : s.dataset.length < 2 ^ 32)
    (hbuf : ∀ c, c < NC → bufferFits s.rows s.cols (s.depth_wf c) = true)
    (himg : ∀ e, e ∈ (rangeScansAfter s.dataset s.rawlog_count).take NC →
      imageFits s.downsample s.rows s.cols e.2 = true) :
    (loadFrame NC s).1 ≠ .undefinedAccess :=
  cameraLoop_defined NC 0 s hsize (fun k hk => by rw [Nat.zero_add]; exact hbuf k hk) himg

theorem loadFrame_served (NC : Nat) (s : CDifodoDatasets) (c q : Nat) (range : CMatrix)
    (hsize : s.dataset.length < 2 ^ 32) (hc : c < NC)
    (hrec : (rangeScansAfter s.dataset s.rawlog_count)[c]? = some (q, range))
    (hbuf : ∀ c, c < NC → bufferFits s.rows s.cols (s.depth_wf c) = true)
    (himg : ∀ e, e ∈ (rangeScansAfter s.dataset s.rawlog_count).take NC →
      imageFits s.downsample s.rows s.cols e.2 = true) :
    loadDepth range s.downsample s.rows s.cols (s.depth_wf c)
      = some ((loadFrame NC s).2.depth_wf c) := by
  have h := cameraLoop_served NC 0 s c q range hsize hc hrec
    (fun k hk => by rw [Nat.zero_add]; exact hbuf k hk) himg
  rw [Nat.zero_add] at h
  exact h

/-- C1, as stated, fails: on the 4-camera log of two range scans followed by
one other record, with buffers and range images of the working size, the
cycle runs out of records at camera 2, `loadFrame` returns with
`dataset_finished` set, and the buffers of the cameras already served are not
what they were before the call. -/
theorem loadFrame_cut_cycle_exposed :
    (rangeScansAfter (stateOn (scansLog 2 ++ [.otherClass])).dataset 0).length = 2 ∧
    (∀ c, c < 4 →
      bufferFits (stateOn (scansLog 2 ++ [.otherClass])).rows
        (stateOn (scansLog 2 ++ [.otherClass])).cols
        ((stateOn (scansLog 2 ++ [.otherClass])).depth_wf c) = true) ∧
    (∀ e, e ∈ rangeScansAfter (stateOn (scansLog 2 ++ [.otherClass])).dataset 0 →
      imageFits (stateOn (scansLog 2 ++ [.otherClass])).downsample
        (stateOn (scansLog 2 ++ [.otherClass])).rows
        (stateOn (scansLog 2 ++ [.otherClass])).cols e.2 = true) ∧
    (loadFrame 4 (stateOn (scansLog 2 ++ [.otherClass]))).1 = .returned ∧
    (loadFrame 4 (stateOn (scansLog 2 ++ [.otherClass]))).2.dataset_finished = true ∧
    ¬ (∀ c, c < 4 →
        (loadFrame 4 (stateOn (scansLog 2 ++ [.otherClass]))).2.depth_wf c
          = (stateOn (scansLog 2 ++ [.otherClass])).depth_wf c) := by
  refine ⟨by decide, by decide, by decide, by decide, by decide, fun h => ?_⟩
  have h0 := congrArg (fun m => m.coeff 0 0) (h 0 (by decide))
  revert h0
  decide

/-- C1, amended: when fewer than `NC` range scans remain at or after
`rawlog_count`, the log goes on after the last of them (so that the skip loop
is what reaches the end), the log length fits an `unsigned int`, and the
buffers `depth_wf[c]` and the remaining range images fit the working
resolution, `loadFrame` returns with `dataset_finished` set and
`rawlog_count` at the log size; all pyramid grids and the buffers of the
cameras not yet served are unchanged, and each camera served before the
records ran out holds the frame decoded from its record. -/
theorem loadFrame_truncated_cycle (NC : Nat) (s : CDifodoDatasets)
    (hsize : s.dataset.length < 2 ^ 32)
    (hstart : s.rawlog_count < s.dataset.length)
    (hfew : (rangeScansAfter s.dataset s.rawlog_count).length < NC)
    (hlast : ∀ q img, (rangeScansAfter s.dataset s.rawlog_count).getLast? = some (q, img) →
      q + 1 < s.dataset.length)
    (hbuf : ∀ c, c < NC → bufferFits s.rows s.cols (s.depth_wf c) = true)
    (himg : ∀ e, e ∈ (rangeScansAfter s.dataset s.rawlog_count).take NC →
      imageFits s.downsample s.rows s.cols e.2 = true) :
    ∃ s1, loadFrame NC s = (.returned, s1) ∧ s1.dataset_finished = true ∧
      s1.rawlog_count = s.dataset.length ∧ s1.pyr = s.pyr ∧
      (∀ c qc imgc, (rangeScansAfter s.dataset s.rawlog_count)[c]? = some (qc, imgc) →
        loadDepth imgc s.downsample s.rows s.cols (s.depth_wf c) = some (s1.depth_wf c)) ∧
      (∀ c, (rangeScansAfter s.dataset s.rawlog_count).length ≤ c →
        s1.depth_wf c = s.depth_wf c) := by
  obtain ⟨s1, e1, e2, e3, e5⟩ := cameraLoop_truncated NC 0 s hsize hstart hfew hlast
    (fun k hk => by rw [Nat.zero_add]; exact hbuf k hk) himg
  have hframe := (cameraLoop_frame NC 0 s).fields
  rw [e1] at hframe
  refine ⟨s1, e1, e2, e3, hframe.2.1, ?_, ?_⟩
  · intro c qc imgc hc
    have hlen : c < (rangeScansAfter s.dataset s.rawlog_count).length := by
      by_contra hge
      rw [List.getElem?_eq_none (not_lt.1 hge)] at hc
      exact absurd hc (by simp)
    have h := loadFrame_served NC s c qc imgc hsize (by omega) hc hbuf himg
    have e : loadFrame NC s = (.returned, s1) := e1
    rw [e] at h
    exact h
  · intro c hc
    exact e5 c (Or.inr (by omega))

/-- The truncated cycle on the log of two range scans and one other record,
four cameras. -/
theorem loadFrame_truncated_cycle_witness :
    ∃ s1, loadFrame 4 (stateOn (scansLog 2 ++ [.otherClass])) = (.returned, s1) ∧
      s1.dataset_finished = true ∧
      s1.rawlog_count = (stateOn (scansLog 2 ++ [.otherClass])).dataset.length ∧
      s1.pyr = (stateOn (scansLog 2 ++ [.otherClass])).pyr ∧
      (∀ c qc imgc,
        (rangeScansAfter (stateOn (scansLog 2 ++ [.otherClass])).dataset
          (stateOn (scansLog 2 ++ [.otherClass])).rawlog_count)[c]? = some (qc, imgc) →
        loadDepth imgc (stateOn (scansLog 2 ++ [.otherClass])).downsample
            (stateOn (scansLog 2 ++ [.otherClass])).rows
            (stateOn (scansLog 2 ++ [.otherClass])).cols
            ((stateOn (scansLog 2 ++ [.otherClass])).depth_wf c)
          = some (s1.depth_wf c)) ∧
      (∀ c,
        (rangeScansAfter (stateOn (scansLog 2 ++ [.otherClass])).dataset
          (stateOn (scansLog 2 ++ [.otherClass])).rawlog_count).length ≤ c →
        s1.depth_wf c = (stateOn (scansLog 2 ++ [.otherClass])).depth_wf c) :=
  loadFrame_truncated_cycle 4 (stateOn (scansLog 2 ++ [.otherClass])) (by decide) (by decide)
    (by decide) (by
      intro q img h
      have h2 : (rangeScansAfter (stateOn (scansLog 2 ++ [.otherClass])).dataset
          (stateOn (scansLog 2 ++ [.otherClass])).rawlog_count).getLast?
            = some (1, scanImage 1) := rfl
      rw [h2] at h
      simp only [Option.some.injEq, Prod.mk.injEq] at h
      rw [← h.1]
      decide) (by decide) (by decide)

/-- C2, as stated, fails, in two ways. The log of four range scans with an
empty range image followed by one other record holds four range scans at or
after position 0 and one more record after the fourth, yet `loadFrame` for
four cameras does not return: line 339 reads `range(4294967295, 4294967295)`
of a 0 x 0 matrix for camera 0. And on the accepted configuration
`cam_mode = 32`, target 20 x 20, whose buffers are 15 x 20, the log of four
20 x 20 range scans and one other record meets the same conditions, yet the
pixel loops leave the buffer of camera 0 and `loadFrame` does not return. -/
theorem loadFrame_undersized_matrices :
    ((rangeScansAfter (stateOn (List.replicate 4 emptyScan ++ [.otherClass])).dataset
      (stateOn (List.replicate 4 emptyScan ++ [.otherClass])).rawlog_count)[4 - 1]?
        = some (3, CMatrix.empty) ∧
    3 + 1 < (stateOn (List.replicate 4 emptyScan ++ [.otherClass])).dataset.length ∧
    pixelIndex (CMatrix.empty.rows % 2 ^ 32)
      (stateOn (List.replicate 4 emptyScan ++ [.otherClass])).downsample 0 = 4294967295 ∧
    (loadFrame 4 (stateOn (List.replicate 4 emptyScan ++ [.otherClass]))).1
      = .undefinedAccess ∧
    ¬ (∃ s1, loadFrame 4 (stateOn (List.replicate 4 emptyScan ++ [.otherClass]))
        = (.returned, s1))) ∧
    ((rangeScansAfter stateWide.dataset stateWide.rawlog_count)[4 - 1]?
        = some (3, wideImage) ∧
    3 + 1 < stateWide.dataset.length ∧
    (loadFrame 4 stateWide).1 = .undefinedAccess ∧
    ¬ (∃ s1, loadFrame 4 stateWide = (.returned, s1))) := by
  refine ⟨⟨rfl, by decide, by decide, by decide, ?_⟩, ⟨rfl, by decide, by decide, ?_⟩⟩
  · rintro ⟨s1, h⟩
    have h0 : (loadFrame 4 (stateOn (List.replicate 4 emptyScan ++ [.otherClass]))).1
        = Exit.returned := congrArg Prod.fst h
    revert h0
    decide
  · rintro ⟨s1, h⟩
    have h0 : (loadFrame 4 stateWide).1 = Exit.returned := congrArg Prod.fst h
    revert h0
    decide

/-- C2, amended: when at least `NC` range scans lie at or after `rawlog_count`
(the `NC`-th of them at position `q`), the log holds a further record after
position `q`, its length fits an `unsigned int`, and the buffers `depth_wf[c]`
and the first `NC` of those range images fit the working resolution,
`loadFrame` returns, camera `c` holds the frame decoded from the `(c+1)`-th of
those range scans for every `c < NC`, no other buffer changes, `rawlog_count`
is `q + 1` and `dataset_finished` is unchanged. -/
theorem loadFrame_full_cycle (NC : Nat) (s : CDifodoDatasets) (q : Nat) (img : CMatrix)
    (hsize : s.dataset.length < 2 ^ 32) (hNC : 0 < NC)
    (hq : (rangeScansAfter s.dataset s.rawlog_count)[NC - 1]? = some (q, img))
    (hmore : q + 1 < s.dataset.length)
    (hbuf : ∀ c, c < NC → bufferFits s.rows s.cols (s.depth_wf c) = true)
    (himg : ∀ e, e ∈ (rangeScansAfter s.dataset s.rawlog_count).take NC →
      imageFits s.downsample s.rows s.cols e.2 = true) :
    ∃ s1, loadFrame NC s = (.returned, s1) ∧ s1.rawlog_count = q + 1 ∧
      s1.dataset_finished = s.dataset_finished ∧
      (∀ c, c < NC → ∃ qc imgc,
        (rangeScansAfter s.dataset s.rawlog_count)[c]? = some (qc, imgc) ∧
        loadDepth imgc s.downsample s.rows s.cols (s.depth_wf c) = some (s1.depth_wf c)) ∧
      (∀ c, NC ≤ c → s1.depth_wf c = s.depth_wf c) ∧
      s1.pyr = s.pyr ∧ s1.dataset = s.dataset := by
  obtain ⟨n, rfl⟩ : ∃ n, NC = n + 1 := ⟨NC - 1, by omega⟩
  rw [Nat.add_sub_cancel] at hq
  obtain ⟨s1, e1, e2, e3, e5⟩ := cameraLoop_full n 0 s q img hsize hq hmore
    (fun k hk => by rw [Nat.zero_add]; exact hbuf k hk) himg
  have hframe := (cameraLoop_frame (n + 1) 0 s).fields
  rw [e1] at hframe
  refine ⟨s1, e1, e2, e3, ?_, ?_, hframe.2.1, hframe.1⟩
  · intro c hc
    have hlen : n < (rangeScansAfter s.dataset s.rawlog_count).length := by
      by_contra hge
      rw [List.getElem?_eq_none (not_lt.1 hge)] at hq
      exact absurd hq (by simp)
    have hclen : c < (rangeScansAfter s.dataset s.rawlog_count).length := by omega
    refine ⟨((rangeScansAfter s.dataset s.rawlog_count)[c]).1,
      ((rangeScansAfter s.dataset s.rawlog_count)[c]).2, List.getElem?_eq_getElem hclen, ?_⟩
    have h := loadFrame_served (n + 1) s c _ _ hsize hc (List.getElem?_eq_getElem hclen)
      hbuf himg
    have e : loadFrame (n + 1) s = (.returned, s1) := e1
    rw [e] at h
    exact h
  · intro c hc
    exact e5 c (Or.inr (by omega))

/-- A full cycle of two cameras on the log of one other record followed by
three range scans. -/
theorem loadFrame_full_cycle_witness :
    ∃ s1, loadFrame 2 (stateOn (.otherClass :: scansLog 3)) = (.returned, s1) ∧
      s1.rawlog_count = 2 + 1 ∧
      s1.dataset_finished = (stateOn (.otherClass :: scansLog 3)).dataset_finished ∧
      (∀ c, c < 2 → ∃ qc imgc,
        (rangeScansAfter (stateOn (.otherClass :: scansLog 3)).dataset
          (stateOn (.otherClass :: scansLog 3)).rawlog_count)[c]? = some (qc, imgc) ∧
        loadDepth imgc (stateOn (.otherClass :: scansLog 3)).downsample
            (stateOn (.otherClass :: scansLog 3)).rows
            (stateOn (.otherClass :: scansLog 3)).cols
            ((stateOn (.otherClass :: scansLog 3)).depth_wf c)
          = some (s1.depth_wf c)) ∧
      (∀ c, 2 ≤ c → s1.depth_wf c = (stateOn (.otherClass :: scansLog 3)).depth_wf c) ∧
      s1.pyr = (stateOn (.otherClass :: scansLog 3)).pyr ∧
      s1.dataset = (stateOn (.otherClass :: scansLog 3)).dataset :=
  loadFrame_full_cycle 2 (stateOn (.otherClass :: scansLog 3)) 2 (scanImage 1)
    (by decide) (by decide) rfl (by decide) (by decide) (by decide)

/-- C3, the 15-record log: four cameras, fifteen range scans. The first three
calls of `loadFrame` return without reporting the end of the stream; the
fourth sets `dataset_finished` after camera 2 has consumed the last record
and then asks the log for the record at index 15, its size: it is left by the
exception of `getAsObservation`, not by a return. -/
theorem loadFrame_fifteen_scans :
    (loadFrame 4 (stateOn (scansLog 15))).1 = .returned ∧
    (loadFrame 4 (stateOn (scansLog 15))).2.dataset_finished = false ∧
    (loadFrame 4 (loadFrame 4 (stateOn (scansLog 15))).2).1 = .returned ∧
    (loadFrame 4 (loadFrame 4 (stateOn (scansLog 15))).2).2.dataset_finished = false ∧
    (loadFrame 4 (loadFrame 4 (loadFrame 4 (stateOn (scansLog 15))).2).2).1 = .returned ∧
    (loadFrame 4 (loadFrame 4 (loadFrame 4 (stateOn (scansLog 15))).2).2).2.dataset_finished
      = false ∧
    (loadFrame 4 (loadFrame 4 (loadFrame 4 (stateOn (scansLog 15))).2).2).2.rawlog_count
      = 12 ∧
    (loadFrame 4 (loadFrame 4 (loadFrame 4 (loadFrame 4 (stateOn (scansLog 15))).2).2).2).1
      = .indexOutOfBounds ∧
    (loadFrame 4 (loadFrame 4 (loadFrame 4 (loadFrame 4
      (stateOn (scansLog 15))).2).2).2).2.rawlog_count = 15 ∧
    (loadFrame 4 (loadFrame 4 (loadFrame 4 (loadFrame 4
      (stateOn (scansLog 15))).2).2).2).2.dataset_finished = true := by
  decide

theorem loadFrame_dataset (NC : Nat) (s : CDifodoDatasets) :
    (loadFrame NC s).2.dataset = s.dataset :=
  (cameraLoop_frame NC 0 s).fields.1

theorem reset_cursor (NC : Nat) (fast slow : CDifodo → CDifodo) (s : CDifodoDatasets) :
    (reset NC fast slow s).2.dataset = (loadFrame NC s).2.dataset ∧
    (reset NC fast slow s).2.rawlog_count = (loadFrame NC s).2.rawlog_count ∧
    (reset NC fast slow s).2.dataset_finished = (loadFrame NC s).2.dataset_finished := by
  unfold reset
  cases h : loadFrame NC s with
  | mk e s1 =>
    cases e <;> exact ⟨rfl, rfl, rfl⟩

theorem Call.run_dataset (NC : Nat) (fast slow : CDifodo → CDifodo) (call : Call)
    (s : CDifodoDatasets) : (call.run NC fast slow s).2.dataset = s.dataset := by
  cases call with
  | loadFrame => exact loadFrame_dataset NC s
  | reset =>
    show (Difodo.reset NC fast slow s).2.dataset = s.dataset
    rw [(reset_cursor NC fast slow s).1]
    exact loadFrame_dataset NC s

theorem Call.run_mono (NC : Nat) (fast slow : CDifodo → CDifodo) (call : Call)
    (s : CDifodoDatasets) (hsize : s.dataset.length < 2 ^ 32) :
    s.rawlog_count ≤ (call.run NC fast slow s).2.rawlog_count ∧
      (s.dataset_finished = true → (call.run NC fast slow s).2.dataset_finished = true) := by
  cases call with
  | loadFrame => exact cameraLoop_mono NC 0 s hsize
  | reset =>
    show s.rawlog_count ≤ (Difodo.reset NC fast slow s).2.rawlog_count ∧
      (s.dataset_finished = true → (Difodo.reset NC fast slow s).2.dataset_finished = true)
    rw [(reset_cursor NC fast slow s).2.1, (reset_cursor NC fast slow s).2.2]
    exact cameraLoop_mono NC 0 s hsize

theorem runCalls_dataset (NC : Nat) (fast slow : CDifodo → CDifodo) (calls : List Call) :
    ∀ s : CDifodoDatasets, (runCalls NC fast slow calls s).dataset = s.dataset := by
  induction calls with
  | nil => intro s; rfl
  | cons call rest ih =>
    intro s
    show (runCalls NC fast slow rest (call.run NC fast slow s).2).dataset = s.dataset
    rw [ih, Call.run_dataset]

theorem runCalls_mono (NC : Nat) (fast slow : CDifodo → CDifodo) (calls : List Call) :
    ∀ s : CDifodoDatasets, s.dataset.length < 2 ^ 32 →
      s.rawlog_count ≤ (runCalls NC fast slow calls s).rawlog_count ∧
        (s.dataset_finished = true →
          (runCalls NC fast slow calls s).dataset_finished = true) := by
  induction calls with
  | nil => intro s _; exact ⟨le_refl _, fun h => h⟩
  | cons call rest ih =>
    intro s hsize
    have h1 := Call.run_mono NC fast slow call s hsize
    have h2 := ih (call.run NC fast slow s).2 (by rw [Call.run_dataset]; exact hsize)
    show s.rawlog_count ≤ (runCalls NC fast slow rest (call.run NC fast slow s).2).rawlog_count ∧
      (s.dataset_finished = true →
        (runCalls NC fast slow rest (call.run NC fast slow s).2).dataset_finished = true)
    exact ⟨le_trans h1.1 h2.1, fun h => h2.2 (h1.2 h)⟩

/-- C5: along any sequence of `loadFrame` and `reset` calls on a log whose
length fits an `unsigned int`, whatever pyramid builders `reset` runs and
however each call is left, `rawlog_count` never decreases and
`dataset_finished`, once true, stays true: this holds from the start of the
sequence to its end, and for every single call of it, between the state in
which the call starts and the state it leaves. -/
theorem cursor_monotone (NC : Nat) (fast slow : CDifodo → CDifodo) (calls : List Call)
    (s : CDifodoDatasets) (hsize : s.dataset.length < 2 ^ 32) :
    (s.rawlog_count ≤ (runCalls NC fast slow calls s).rawlog_count ∧
      (s.dataset_finished = true →
        (runCalls NC fast slow calls s).dataset_finished = true)) ∧
    ∀ (before : List Call) (call : Call) (later : List Call),
      calls = before ++ call :: later →
      (runCalls NC fast slow before s).rawlog_count
          ≤ (call.run NC fast slow (runCalls NC fast slow before s)).2.rawlog_count ∧
        ((runCalls NC fast slow before s).dataset_finished = true →
          (call.run NC fast slow (runCalls NC fast slow before s)).2.dataset_finished
            = true) := by
  refine ⟨runCalls_mono NC fast slow calls s hsize, ?_⟩
  intro before call later _
  exact Call.run_mono NC fast slow call (runCalls NC fast slow before s)
    (by rw [runCalls_dataset]; exact hsize)

/-- The sequence `reset`, `loadFrame` of two cameras on a log of three range
scans. -/
theorem cursor_monotone_witness :
    ((stateOn (scansLog 3)).rawlog_count
        ≤ (runCalls 2 id id [.reset, .loadFrame] (stateOn (scansLog 3))).rawlog_count ∧
      ((stateOn (scansLog 3)).dataset_finished = true →
        (runCalls 2 id id [.reset, .loadFrame] (stateOn (scansLog 3))).dataset_finished
          = true)) ∧
    ∀ (before : List Call) (call : Call) (later : List Call),
      [Call.reset, Call.loadFrame] = before ++ call :: later →
      (runCalls 2 id id before (stateOn (scansLog 3))).rawlog_count
          ≤ (call.run 2 id id (runCalls 2 id id before (stateOn (scansLog 3)))).2.rawlog_count ∧
        ((runCalls 2 id id before (stateOn (scansLog 3))).dataset_finished = true →
          (call.run 2 id id
            (runCalls 2 id id before (stateOn (scansLog 3)))).2.dataset_finished = true) :=
  cursor_monotone 2 id id [.reset, .loadFrame] (stateOn (scansLog 3)) (by decide)

/-- C9: a call of `loadFrame` that starts inside the log (whose length fits
an `unsigned int`) and returns leaves `rawlog_count` at most at the log size,
and `dataset_finished` true exactly when it was true before or
`rawlog_count` has reached the log size. -/
theorem loadFrame_finished_iff (NC : Nat) (s s1 : CDifodoDatasets)
    (hsize : s.dataset.length < 2 ^ 32)
    (hstart : s.rawlog_count < s.dataset.length)
    (hret : loadFrame NC s = (.returned, s1)) :
    s1.dataset = s.dataset ∧ s1.rawlog_count ≤ s.dataset.length ∧
      (s1.dataset_finished = true ↔
        (s.dataset_finished = true ∨ s1.rawlog_count = s.dataset.length)) := by
  have h := cameraLoop_returned NC 0 s s1 hsize (le_of_lt hstart) (by omega) hret
  have hd := loadFrame_dataset NC s
  rw [hret] at hd
  exact ⟨hd, h.1, h.2⟩

/-- The cycle of two cameras whose last camera consumes the last record of
the log. -/
theorem loadFrame_finished_iff_witness :
    (loadFrame 2 (stateOn (scansLog 2))).2.dataset = (stateOn (scansLog 2)).dataset ∧
      (loadFrame 2 (stateOn (scansLog 2))).2.rawlog_count
        ≤ (stateOn (scansLog 2)).dataset.length ∧
      ((loadFrame 2 (stateOn (scansLog 2))).2.dataset_finished = true ↔
        ((stateOn (scansLog 2)).dataset_finished = true ∨
          (loadFrame 2 (stateOn (scansLog 2))).2.rawlog_count
            = (stateOn (scansLog 2)).dataset.length)) :=
  loadFrame_finished_iff 2 (stateOn (scansLog 2)) (loadFrame 2 (stateOn (scansLog 2))).2
    (by decide) (by decide) (Prod.ext (by decide) rfl)

/-- C10, as stated, fails: `loadConfiguration` accepts `cam_mode = 32`,
`downsample = 1`, target 20 x 20 and sizes every `depth_wf[c]` 15 x 20; the
20 x 20 range image of the first record satisfies `downsample*(rows-1) < H`
and `downsample*(cols-1) < W`, yet the pixel loops of `loadFrame` reach
`depth_wf[0](15, 0)`, outside the 15-row buffer, and the call is left there
without camera 0 being filled. -/
theorem loadFrame_buffer_too_small :
    loadConfiguration 4 (iniOf 32 1 20 20 1
        ((List.replicate 4 (.CObservation3DRangeScan wideImage)) ++ [.otherClass])) .new
      = .ok stateWide ∧
    (rangeScansAfter stateWide.dataset stateWide.rawlog_count)[0]? = some (0, wideImage) ∧
    stateWide.downsample * (stateWide.rows - 1) < wideImage.rows ∧
    stateWide.downsample * (stateWide.cols - 1) < wideImage.cols ∧
    (stateWide.depth_wf 0).rows = 15 ∧ (stateWide.depth_wf 0).cols = 20 ∧
    stateWide.rows = 20 ∧ stateWide.cols = 20 ∧
    loadDepth wideImage stateWide.downsample stateWide.rows stateWide.cols
      (stateWide.depth_wf 0) = none ∧
    (loadFrame 4 stateWide).1 = .undefinedAccess := by
  refine ⟨rfl, rfl, by decide, by decide, by decide, by decide, by decide, by decide, ?_,
    by decide⟩
  have h1 : (loadDepth wideImage stateWide.downsample stateWide.rows stateWide.cols
      (stateWide.depth_wf 0)).isNone = true := by decide
  exact Option.isNone_iff_eq_none.1 h1

/-- C10, amended: in a call of `loadFrame` on a log whose length fits an
`unsigned int`, where the buffers `depth_wf[c]` have at least `rows x cols`
entries and every range image to be read in the cycle has `H` rows and `W`
columns fitting an `unsigned int` with `downsample*(rows-1) < H` and
`downsample*(cols-1) < W`, no access falls outside its matrix and, for the
camera `c < NC` read from the range image `range`: the unsigned index
expressions of line 339 take the values `H-1-downsample*i` and
`W-1-downsample*j`, both inside the image, for all `i < rows`, `j < cols`;
entry `(i,j)` of `depth_wf[c]` is the clipped sample found there; and every
entry outside `[0,rows) x [0,cols)`, like the dimensions of `depth_wf[c]`, is
left as it was. -/
theorem loadFrame_pixel_mirror (NC : Nat) (s : CDifodoDatasets) (c q : Nat) (range : CMatrix)
    (hsize : s.dataset.length < 2 ^ 32) (hc : c < NC)
    (hrec : (rangeScansAfter s.dataset s.rawlog_count)[c]? = some (q, range))
    (hbuf : ∀ c, c < NC → bufferFits s.rows s.cols (s.depth_wf c) = true)
    (himg : ∀ e, e ∈ (rangeScansAfter s.dataset s.rawlog_count).take NC →
      imageFits s.downsample s.rows s.cols e.2 = true) :
    (loadFrame NC s).1 ≠ .undefinedAccess ∧
    loadDepth range s.downsample s.rows s.cols (s.depth_wf c)
      = some ((loadFrame NC s).2.depth_wf c) ∧
    (∀ i j, i < s.rows → j < s.cols →
      pixelIndex (range.rows % 2 ^ 32) s.downsample i = range.rows - 1 - s.downsample * i ∧
      range.rows - 1 - s.downsample * i < range.rows ∧
      pixelIndex (range.cols % 2 ^ 32) s.downsample j = range.cols - 1 - s.downsample * j ∧
      range.cols - 1 - s.downsample * j < range.cols ∧
      ((loadFrame NC s).2.depth_wf c).coeff i j
        = storedDepth (range.coeff (range.rows - 1 - s.downsample * i)
            (range.cols - 1 - s.downsample * j))) ∧
    (∀ i j, ¬ (i < s.rows ∧ j < s.cols) →
      ((loadFrame NC s).2.depth_wf c).coeff i j = (s.depth_wf c).coeff i j) ∧
    ((loadFrame NC s).2.depth_wf c).rows = (s.depth_wf c).rows ∧
    ((loadFrame NC s).2.depth_wf c).cols = (s.depth_wf c).cols := by
  have hserved := loadFrame_served NC s c q range hsize hc hrec hbuf himg
  have hi : imageFits s.downsample s.rows s.cols range = true :=
    himg (q, range) (mem_take_of_getElem? _ NC c (q, range) hc hrec)
  obtain ⟨wf1, e, d1, d2, f1, f2⟩ :=
    loadDepth_fits range s.downsample s.rows s.cols (s.depth_wf c) hi (hbuf c hc)
  have hwf : (loadFrame NC s).2.depth_wf c = wf1 :=
    (Option.some.inj (hserved.symm.trans e))
  rw [hwf]
  exact ⟨loadFrame_defined NC s hsize hbuf himg, e, f1, f2, d1, d2⟩

/-- Camera 1 of a cycle of four cameras at resolution 2 x 2 on a log of five
2 x 2 range images. -/
theorem loadFrame_pixel_mirror_witness :
    (loadFrame 4 (stateOn (scansLog 5))).1 ≠ .undefinedAccess ∧
    loadDepth (scanImage 1) (stateOn (scansLog 5)).downsample (stateOn (scansLog 5)).rows
        (stateOn (scansLog 5)).cols ((stateOn (scansLog 5)).depth_wf 1)
      = some ((loadFrame 4 (stateOn (scansLog 5))).2.depth_wf 1) ∧
    (∀ i j, i < (stateOn (scansLog 5)).rows → j < (stateOn (scansLog 5)).cols →
      pixelIndex ((scanImage 1).rows % 2 ^ 32) (stateOn (scansLog 5)).downsample i
        = (scanImage 1).rows - 1 - (stateOn (scansLog 5)).downsample * i ∧
      (scanImage 1).rows - 1 - (stateOn (scansLog 5)).downsample * i < (scanImage 1).rows ∧
      pixelIndex ((scanImage 1).cols % 2 ^ 32) (stateOn (scansLog 5)).downsample j
        = (scanImage 1).cols - 1 - (stateOn (scansLog 5)).downsample * j ∧
      (scanImage 1).cols - 1 - (stateOn (scansLog 5)).downsample * j < (scanImage 1).cols ∧
      ((loadFrame 4 (stateOn (scansLog 5))).2.depth_wf 1).coeff i j
        = storedDepth ((scanImage 1).coeff
            ((scanImage 1).rows - 1 - (stateOn (scansLog 5)).downsample * i)
            ((scanImage 1).cols - 1 - (stateOn (scansLog 5)).downsample * j))) ∧
    (∀ i j, ¬ (i < (stateOn (scansLog 5)).rows ∧ j < (stateOn (scansLog 5)).cols) →
      ((loadFrame 4 (stateOn (scansLog 5))).2.depth_wf 1).coeff i j
        = ((stateOn (scansLog 5)).depth_wf 1).coeff i j) ∧
    ((loadFrame 4 (stateOn (scansLog 5))).2.depth_wf 1).rows
      = ((stateOn (scansLog 5)).depth_wf 1).rows ∧
    ((loadFrame 4 (stateOn (scansLog 5))).2.depth_wf 1).cols
      = ((stateOn (scansLog 5)).depth_wf 1).cols :=
  loadFrame_pixel_mirror 4 (stateOn (scansLog 5)) 1 1 (scanImage 1) (by decide) (by decide)
    rfl (by decide) (by decide)

/-- C4, as stated, fails: minus infinity is not finite, yet the value stored
for it is minus infinity itself, not `0.0`. -/
theorem storedDepth_negInf :
    F32.negInf.isFinite = false ∧ storedDepth F32.negInf = F32.negInf ∧
      ¬ ((F32.ge F32.negInf F32.lit4_5 = true ∨ F32.negInf.isFinite = false) →
          storedDepth F32.negInf = F32.zero) := by
  decide

/-- C4, amended: the value `loadFrame` stores at `(i,j)` for the sample `z` it
reads (the read inside the range image, the write inside the buffer; outside
either no value is stored) is `0.0` when `z >= 4.5` (which includes plus
infinity) or `z` is NaN, and `z` itself in every other case, minus infinity
included; the float nearest 4.499 is stored unchanged, 4.5 and the float
nearest 4.501 are stored as `0.0`. -/
theorem loadFrame_stored_depth :
    (∀ (range : CMatrix) (height width downsample j i : Nat) (wf : CMatrix),
      (loadPixel range height width downsample j i wf).map (fun m => m.coeff i j)
        = if pixelIndex height downsample i < range.rows ∧
              pixelIndex width downsample j < range.cols ∧ i < wf.rows ∧ j < wf.cols then
            some
              (if F32.ge (range.coeff (pixelIndex height downsample i)
                      (pixelIndex width downsample j)) F32.lit4_5 = true ∨
                    (range.coeff (pixelIndex height downsample i)
                      (pixelIndex width downsample j)).isNaN = true
                then F32.zero
                else range.coeff (pixelIndex height downsample i)
                      (pixelIndex width downsample j))
          else none) ∧
    storedDepth F32.lit4_499 = F32.lit4_499 ∧ storedDepth F32.lit4_5 = F32.zero ∧
    storedDepth F32.lit4_501 = F32.zero ∧ storedDepth F32.posInf = F32.zero ∧
    storedDepth F32.qNaN = F32.zero ∧ storedDepth F32.negInf = F32.negInf := by
  refine ⟨?_, by decide, by decide, by decide, by decide, by decide, by decide⟩
  intro range height width downsample j i wf
  by_cases h : pixelIndex height downsample i < range.rows ∧
      pixelIndex width downsample j < range.cols ∧ i < wf.rows ∧ j < wf.cols
  · rw [if_pos h, loadPixel_eq_some range height width downsample j i wf h.1 h.2.1 h.2.2.1
      h.2.2.2, ← storedDepth_eq]
    simp
  · rw [if_neg h]
    cases hp : loadPixel range height width downsample j i wf with
    | none => rfl
    | some wf1 =>
      exact absurd ((loadPixel_some_iff range height width downsample j i wf).1 ⟨wf1, hp⟩) h

/-! ## loadConfiguration -/

theorem loadConfiguration_of_ok (NC : Nat) (ini : CConfigFileBase) (s0 s : CDifodoDatasets)
    (h : loadConfiguration NC ini s0 = .ok s) :
    ∃ cm dsv rv cv lv log,
      ini.cam_mode = some cm ∧ ini.downsample = some dsv ∧ ini.rows = some rv ∧
      ini.cols = some cv ∧ ini.ctf_levels = some lv ∧ ini.rawlog = some log ∧
      (toUInt cm * toUInt dsv) % 2 ^ 32 ≠ 0 ∧ toUInt cv ≠ 0 ∧
      640 / ((toUInt cm * toUInt dsv) % 2 ^ 32) / toUInt cv ≠ 0 ∧
      ¬ (0 < NC ∧
        32 < roundLog2 (640 / ((toUInt cm * toUInt dsv) % 2 ^ 32) / toUInt cv) + toUInt lv) ∧
      s = { s0 with
            toCDifodo :=
              sizePyramid NC
                (roundLog2 (640 / ((toUInt cm * toUInt dsv) % 2 ^ 32) / toUInt cv) + toUInt lv)
                { s0.toCDifodo with
                  cam_mode := toUInt cm, fast_pyramid := true, downsample := toUInt dsv,
                  rows := toUInt rv, cols := toUInt cv, ctf_levels := toUInt lv,
                  width := 640 / ((toUInt cm * toUInt dsv) % 2 ^ 32),
                  height := 480 / ((toUInt cm * toUInt dsv) % 2 ^ 32) }
            dataset := log, rawlog_count := 0,
            repr_level := roundLog2 (640 / ((toUInt cm * toUInt dsv) % 2 ^ 32) / toUInt cv) } := by
  obtain ⟨o1, o2, o3, o4, o5, b1, b2, o6⟩ := ini
  unfold loadConfiguration at h
  simp only [read_int, bind, Except.bind] at h
  cases o1 with
  | none => simp at h
  | some cm =>
    cases o2 with
    | none => simp at h
    | some dsv =>
      cases o3 with
      | none => simp at h
      | some rv =>
        cases o4 with
        | none => simp at h
        | some cv =>
          cases o5 with
          | none => simp at h
          | some lv =>
            simp only [] at h
            split at h
            · simp at h
            · split at h
              · simp at h
              · cases o6 with
                | none => simp at h
                | some log =>
                  simp only [] at h
                  split at h
                  · simp at h
                  · split at h
                    · simp at h
                    · split at h
                      · simp at h
                      · split at h
                        · simp at h
                        · rename_i g1 g2 g3 g4 g5 g6
                          refine ⟨cm, dsv, rv, cv, lv, log, rfl, rfl, rfl, rfl, rfl, rfl,
                            g3, g4, g5, g6, ?_⟩
                          exact (Except.ok.inj h).symm

theorem sizedLevel_grids (rows_i cols_i cols : Nat) (l : PyrLevel) :
    ∀ m ∈ (sizedLevel rows_i cols_i cols l).grids (decide (cols_i ≤ cols)),
      m.rows = rows_i ∧ m.cols = cols_i := by
  intro m hm
  unfold sizedLevel at hm
  by_cases hw : cols_i ≤ cols
  · simp only [hw, if_true, decide_True, PyrLevel.grids, CMatrix.resize, CMatrix.assign,
      List.cons_append, List.nil_append, List.mem_cons, List.mem_singleton] at hm
    rcases hm with h | h | h | h | h | h | h | h | h | h | h | h | h | h | h | h
    all_goals first
      | (subst h; exact ⟨rfl, rfl⟩)
      | exact absurd h (List.not_mem_nil _)
  · simp only [hw, if_false, decide_False, PyrLevel.grids, CMatrix.resize, CMatrix.assign,
      List.cons_append, List.nil_append, List.mem_cons, List.mem_singleton,
      List.append_nil] at hm
    rcases hm with h | h | h | h | h | h | h | h | h | h | h | h | h
    all_goals first
      | (subst h; exact ⟨rfl, rfl⟩)
      | exact absurd h (List.not_mem_nil _)

theorem sizedLevel_depth (rows_i cols_i cols : Nat) (l : PyrLevel) :
    (sizedLevel rows_i cols_i cols l).depth.rows = rows_i ∧
      (sizedLevel rows_i cols_i cols l).depth.cols = cols_i := by
  unfold sizedLevel
  simp only []
  split <;> exact ⟨rfl, rfl⟩

theorem levels_fold (c n : Nat) (d : CDifodo) :
    ((List.range n).foldl (fun acc i => allocLevel c i acc) d).width = d.width ∧
    ((List.range n).foldl (fun acc i => allocLevel c i acc) d).height = d.height ∧
    ((List.range n).foldl (fun acc i => allocLevel c i acc) d).cols = d.cols ∧
    ((List.range n).foldl (fun acc i => allocLevel c i acc) d).rows = d.rows ∧
    ((List.range n).foldl (fun acc i => allocLevel c i acc) d).ctf_levels = d.ctf_levels ∧
    ((List.range n).foldl (fun acc i => allocLevel c i acc) d).depth_wf = d.depth_wf ∧
    ∀ c1 i1, ((List.range n).foldl (fun acc i => allocLevel c i acc) d).pyr c1 i1 =
      if c1 = c ∧ i1 < n then
        sizedLevel (d.height / 2 ^ i1) (d.width / 2 ^ i1) d.cols (d.pyr c1 i1)
      else d.pyr c1 i1 := by
  induction n with
  | zero => simp
  | succ n ih =>
    rw [List.range_succ, List.foldl_append]
    simp only [List.foldl_cons, List.foldl_nil]
    obtain ⟨h1, h2, h3, h4, h5, h6, h7⟩ := ih
    refine ⟨h1, h2, h3, h4, h5, h6, ?_⟩
    intro c1 i1
    show (if c1 = c ∧ i1 = n then _ else _) = _
    rw [h1, h2, h3, h7, h7]
    by_cases hc : c1 = c
    · subst hc
      by_cases hi : i1 = n
      · subst hi
        simp
      · by_cases hlt : i1 < n
        · simp [hi, hlt, Nat.lt_succ_of_lt hlt]
        · have : ¬ i1 < n + 1 := by omega
          simp [hi, hlt, this]
    · simp [hc]

theorem allocCamera_spec (n c : Nat) (d : CDifodo) :
    (allocCamera n c d).width = d.width ∧ (allocCamera n c d).height = d.height ∧
    (allocCamera n c d).cols = d.cols ∧ (allocCamera n c d).rows = d.rows ∧
    (allocCamera n c d).ctf_levels = d.ctf_levels ∧
    (∀ c1, (allocCamera n c d).depth_wf c1 =
      if c1 = c then (d.depth_wf c).resize d.height d.width else d.depth_wf c1) ∧
    ∀ c1 i1, (allocCamera n c d).pyr c1 i1 =
      if c1 = c ∧ i1 < n then
        sizedLevel (d.height / 2 ^ i1) (d.width / 2 ^ i1) d.cols (d.pyr c1 i1)
      else d.pyr c1 i1 := by
  obtain ⟨h1, h2, h3, h4, h5, h6, h7⟩ := levels_fold c n d
  refine ⟨h1, h2, h3, h4, h5, ?_, h7⟩
  intro c1
  show (if c1 = c then _ else _) = _
  rw [h1, h2, h6]

theorem sizePyramid_spec (NC n : Nat) (d : CDifodo) :
    (sizePyramid NC n d).width = d.width ∧ (sizePyramid NC n d).height = d.height ∧
    (sizePyramid NC n d).cols = d.cols ∧ (sizePyramid NC n d).rows = d.rows ∧
    (sizePyramid NC n d).ctf_levels = d.ctf_levels ∧
    (∀ c1, (sizePyramid NC n d).depth_wf c1 =
      if c1 < NC then (d.depth_wf c1).resize d.height d.width else d.depth_wf c1) ∧
    ∀ c1 i1, (sizePyramid NC n d).pyr c1 i1 =
      if c1 < NC ∧ i1 < n then
        sizedLevel (d.height / 2 ^ i1) (d.width / 2 ^ i1) d.cols (d.pyr c1 i1)
      else d.pyr c1 i1 := by
  unfold sizePyramid
  induction NC with
  | zero => simp
  | succ NC ih =>
    rw [List.range_succ, List.foldl_append]
    simp only [List.foldl_cons, List.foldl_nil]
    obtain ⟨h1, h2, h3, h4, h5, h6, h7⟩ := ih
    obtain ⟨g1, g2, g3, g4, g5, g6, g7⟩ := allocCamera_spec n NC
      ((List.range NC).foldl (fun acc c => allocCamera n c acc) d)
    refine ⟨g1.trans h1, g2.trans h2, g3.trans h3, g4.trans h4, g5.trans h5, ?_, ?_⟩
    · intro c1
      rw [g6, h1, h2, h6, h6]
      by_cases hc : c1 = NC
      · subst hc
        simp
      · by_cases hlt : c1 < NC
        · simp [hc, hlt, Nat.lt_succ_of_lt hlt]
        · have : ¬ c1 < NC + 1 := by omega
          simp [hc, hlt, this]
    · intro c1 i1
      rw [g7, h1, h2, h3, h7]
      by_cases hc : c1 = NC
      · subst hc
        simp
      · by_cases hlt : c1 < NC
        · simp [hc, hlt, Nat.lt_succ_of_lt hlt]
        · have : ¬ c1 < NC + 1 := by omega
          simp [hc, hlt, this]

theorem roundLog2From_pow (k : Nat) : ∀ (fuel j : Nat), j ≤ k → k - j ≤ fuel →
    roundLog2From (2 ^ k) fuel j = k := by
  intro fuel
  induction fuel with
  | zero =>
    intro j h1 h2
    show j = k
    omega
  | succ fuel ih =>
    intro j h1 h2
    rw [roundLog2From]
    have hsq : 2 ^ k * 2 ^ k = 2 ^ (2 * k) := by rw [← pow_add]; congr 1; omega
    rw [hsq]
    by_cases hlt : 2 ^ (2 * k) < 2 ^ (2 * j + 1)
    · rw [if_pos hlt]
      have := (Nat.pow_lt_pow_iff_right (by norm_num : 1 < 2)).1 hlt
      omega
    · rw [if_neg hlt]
      have hjk : j < k := by
        by_contra hge
        apply hlt
        exact (Nat.pow_lt_pow_iff_right (by norm_num : 1 < 2)).2 (by omega)
      exact ih (j + 1) hjk (by omega)

theorem roundLog2_pow (k : Nat) : roundLog2 (2 ^ k) = k := by
  unfold roundLog2
  exact roundLog2From_pow k (2 ^ k) 0 (Nat.zero_le _) (le_of_lt (Nat.lt_two_pow k))

theorem roundLog2From_least (q : Nat) : ∀ (fuel j : Nat),
    (∀ i, i < j → ¬ q * q < 2 ^ (2 * i + 1)) →
    (∃ k, j ≤ k ∧ k - j ≤ fuel ∧ q * q < 2 ^ (2 * k + 1)) →
    q * q < 2 ^ (2 * roundLog2From q fuel j + 1) ∧
      ∀ i, i < roundLog2From q fuel j → ¬ q * q < 2 ^ (2 * i + 1) := by
  intro fuel
  induction fuel with
  | zero =>
    intro j hbelow hex
    obtain ⟨k, h1, h2, h3⟩ := hex
    have : k = j := by omega
    subst this
    exact ⟨h3, hbelow⟩
  | succ fuel ih =>
    intro j hbelow hex
    rw [roundLog2From]
    by_cases hlt : q * q < 2 ^ (2 * j + 1)
    · rw [if_pos hlt]
      exact ⟨hlt, hbelow⟩
    · rw [if_neg hlt]
      apply ih (j + 1)
      · intro i hi
        rcases Nat.lt_succ_iff_lt_or_eq.1 hi with h | h
        · exact hbelow i h
        · rw [h]; exact hlt
      · obtain ⟨k, h1, h2, h3⟩ := hex
        have hne : k ≠ j := by
          rintro rfl
          exact hlt h3
        exact ⟨k, by omega, by omega, h3⟩

/-- The value `roundLog2 q` is the integer nearest to `log2 q`:
`2^(2k-1) <= q^2 < 2^(2k+1)` for `k = roundLog2 q`, that is
`k - 1/2 <= log2 q < k + 1/2`. -/
theorem roundLog2_nearest (q : Nat) :
    q * q < 2 ^ (2 * roundLog2 q + 1) ∧
      (0 < roundLog2 q → 2 ^ (2 * roundLog2 q - 1) ≤ q * q) := by
  have hq : q * q < 2 ^ (2 * q + 1) := by
    have h1 : q < 2 ^ q := Nat.lt_two_pow q
    have h2 : q * q ≤ 2 ^ q * 2 ^ q := Nat.mul_le_mul (le_of_lt h1) (le_of_lt h1)
    have h3 : 2 ^ q * 2 ^ q = 2 ^ (2 * q) := by rw [← pow_add]; congr 1; omega
    have h4 : 2 ^ (2 * q) < 2 ^ (2 * q + 1) :=
      (Nat.pow_lt_pow_iff_right (by norm_num : 1 < 2)).2 (by omega)
    omega
  obtain ⟨h1, h2⟩ := roundLog2From_least q q 0 (fun i hi => absurd hi (Nat.not_lt_zero i))
    ⟨q, Nat.zero_le _, by omega, hq⟩
  refine ⟨h1, fun hpos => ?_⟩
  have h3 := h2 (roundLog2 q - 1) (by unfold roundLog2 at hpos ⊢; omega)
  have h4 : 2 * (roundLog2 q - 1) + 1 = 2 * roundLog2 q - 1 := by omega
  rw [h4] at h3
  exact not_lt.1 h3

theorem loadConfiguration_facts (NC : Nat) (ini : CConfigFileBase) (s0 s : CDifodoDatasets)
    (h : loadConfiguration NC ini s0 = .ok s) :
    (∃ cm dsv, ini.cam_mode = some cm ∧ ini.downsample = some dsv ∧
      (toUInt cm * toUInt dsv) % 2 ^ 32 ≠ 0 ∧
      s.width = 640 / ((toUInt cm * toUInt dsv) % 2 ^ 32) ∧
      s.height = 480 / ((toUInt cm * toUInt dsv) % 2 ^ 32)) ∧
    s.cols ≠ 0 ∧ s.width / s.cols ≠ 0 ∧ ¬ (0 < NC ∧ 32 < pyrLevels s) ∧
    s.repr_level = roundLog2 (s.width / s.cols) ∧ s.rawlog_count = 0 ∧
    (∀ c, s.depth_wf c =
      if c < NC then (s0.depth_wf c).resize s.height s.width else s0.depth_wf c) ∧
    ∀ c i, s.pyr c i =
      if c < NC ∧ i < pyrLevels s then
        sizedLevel (s.height / 2 ^ i) (s.width / 2 ^ i) s.cols (s0.pyr c i)
      else s0.pyr c i := by
  obtain ⟨cm, dsv, rv, cv, lv, log, h1, h2, h3, h4, h5, h6, g1, g2, g3, g4, rfl⟩ :=
    loadConfiguration_of_ok NC ini s0 s h
  obtain ⟨e1, e2, e3, e4, e5, e6, e7⟩ := sizePyramid_spec NC
    (roundLog2 (640 / ((toUInt cm * toUInt dsv) % 2 ^ 32) / toUInt cv) + toUInt lv)
    { s0.toCDifodo with
      cam_mode := toUInt cm, fast_pyramid := true, downsample := toUInt dsv,
      rows := toUInt rv, cols := toUInt cv, ctf_levels := toUInt lv,
      width := 640 / ((toUInt cm * toUInt dsv) % 2 ^ 32),
      height := 480 / ((toUInt cm * toUInt dsv) % 2 ^ 32) }
  simp only [] at e1 e2 e3 e4 e5 e6 e7
  unfold pyrLevels
  refine ⟨⟨cm, dsv, h1, h2, g1, e1, e2⟩, ?_, ?_, ?_, ?_, rfl, ?_, ?_⟩
  · rw [e3]; exact g2
  · rw [e1, e3]; exact g3
  · rw [e1, e3, e5]; exact g4
  · rw [e1, e3]
  · intro c; rw [e1, e2]; exact e6 c
  · intro c i; rw [e1, e2, e3, e5]; exact e7 c i

/-! ## Claims on `loadConfiguration` -/

/-- C6, as stated, fails: with `cam_mode = 2`, `downsample = 1` (so
`cam_mode*downsample > 0`), target 240 x 320 and `ctf_levels = 6` the six
levels of camera 0 are allocated, level 4 has 15 rows and level 5 has 7:
twice 7 is not 15. -/
theorem loadConfiguration_halving_inexact :
    ∃ s, loadConfiguration 4 (iniOf 2 1 240 320 6 (scansLog 15)) .new = .ok s ∧
      pyrLevels s = 6 ∧ (s.pyr 0 4).depth.rows = 15 ∧ (s.pyr 0 5).depth.rows = 7 ∧
      ¬ (2 * (s.pyr 0 (4 + 1)).depth.rows = (s.pyr 0 4).depth.rows) :=
  ⟨_, rfl, by decide, by decide, by decide, by decide⟩

/-- C6, amended: whenever `loadConfiguration` returns, with
`width = 640/(cam_mode*downsample)` and `height = 480/(cam_mode*downsample)`
(product taken modulo 2^32, non-zero), every grid it sizes at level
`i < pyr_levels` of every camera has resolution `(height / 2^i, width / 2^i)`,
and the rows and columns of level `i+1` are those of level `i` halved with
truncation: the halving is exact precisely when the count of level `i` is
even. -/
theorem loadConfiguration_pyramid (NC : Nat) (ini : CConfigFileBase) (s0 s : CDifodoDatasets)
    (c i : Nat) (h : loadConfiguration NC ini s0 = .ok s) (hc : c < NC)
    (hi : i < pyrLevels s) :
    (∃ cm dsv, ini.cam_mode = some cm ∧ ini.downsample = some dsv ∧
      (toUInt cm * toUInt dsv) % 2 ^ 32 ≠ 0 ∧
      s.width = 640 / ((toUInt cm * toUInt dsv) % 2 ^ 32) ∧
      s.height = 480 / ((toUInt cm * toUInt dsv) % 2 ^ 32)) ∧
    (∀ m ∈ (s.pyr c i).grids (decide (s.width / 2 ^ i ≤ s.cols)),
      m.rows = s.height / 2 ^ i ∧ m.cols = s.width / 2 ^ i) ∧
    (i + 1 < pyrLevels s →
      (s.pyr c (i + 1)).depth.rows = (s.pyr c i).depth.rows / 2 ∧
      (s.pyr c (i + 1)).depth.cols = (s.pyr c i).depth.cols / 2 ∧
      (2 * (s.pyr c (i + 1)).depth.rows = (s.pyr c i).depth.rows ↔
        (s.pyr c i).depth.rows % 2 = 0) ∧
      (2 * (s.pyr c (i + 1)).depth.cols = (s.pyr c i).depth.cols ↔
        (s.pyr c i).depth.cols % 2 = 0)) := by
  obtain ⟨f1, _, _, _, _, _, _, f8⟩ := loadConfiguration_facts NC ini s0 s h
  refine ⟨f1, ?_, ?_⟩
  · rw [f8, if_pos ⟨hc, hi⟩]
    exact sizedLevel_grids _ _ _ _
  · intro hi1
    rw [f8 c (i + 1), if_pos ⟨hc, hi1⟩, f8 c i, if_pos ⟨hc, hi⟩]
    rw [(sizedLevel_depth _ _ _ _).1, (sizedLevel_depth _ _ _ _).1,
      (sizedLevel_depth _ _ _ _).2, (sizedLevel_depth _ _ _ _).2]
    have e1 : s.height / 2 ^ (i + 1) = s.height / 2 ^ i / 2 := by
      rw [pow_succ, Nat.div_div_eq_div_mul]
    have e2 : s.width / 2 ^ (i + 1) = s.width / 2 ^ i / 2 := by
      rw [pow_succ, Nat.div_div_eq_div_mul]
    rw [e1, e2]
    refine ⟨rfl, rfl, ?_, ?_⟩ <;> omega

/-- Camera 3, level 2 of the configuration `cam_mode = 2`, `downsample = 1`,
target 240 x 320, five levels. -/
theorem loadConfiguration_pyramid_witness :
    (∃ cm dsv, (iniOf 2 1 240 320 5 (scansLog 15)).cam_mode = some cm ∧
      (iniOf 2 1 240 320 5 (scansLog 15)).downsample = some dsv ∧
      (toUInt cm * toUInt dsv) % 2 ^ 32 ≠ 0 ∧
      (configuredBy 4 (iniOf 2 1 240 320 5 (scansLog 15))).width
        = 640 / ((toUInt cm * toUInt dsv) % 2 ^ 32) ∧
      (configuredBy 4 (iniOf 2 1 240 320 5 (scansLog 15))).height
        = 480 / ((toUInt cm * toUInt dsv) % 2 ^ 32)) ∧
    (∀ m ∈ ((configuredBy 4 (iniOf 2 1 240 320 5 (scansLog 15))).pyr 3 2).grids
        (decide ((configuredBy 4 (iniOf 2 1 240 320 5 (scansLog 15))).width / 2 ^ 2
          ≤ (configuredBy 4 (iniOf 2 1 240 320 5 (scansLog 15))).cols)),
      m.rows = (configuredBy 4 (iniOf 2 1 240 320 5 (scansLog 15))).height / 2 ^ 2 ∧
      m.cols = (configuredBy 4 (iniOf 2 1 240 320 5 (scansLog 15))).width / 2 ^ 2) ∧
    (2 + 1 < pyrLevels (configuredBy 4 (iniOf 2 1 240 320 5 (scansLog 15))) →
      ((configuredBy 4 (iniOf 2 1 240 320 5 (scansLog 15))).pyr 3 (2 + 1)).depth.rows
        = ((configuredBy 4 (iniOf 2 1 240 320 5 (scansLog 15))).pyr 3 2).depth.rows / 2 ∧
      ((configuredBy 4 (iniOf 2 1 240 320 5 (scansLog 15))).pyr 3 (2 + 1)).depth.cols
        = ((configuredBy 4 (iniOf 2 1 240 320 5 (scansLog 15))).pyr 3 2).depth.cols / 2 ∧
      (2 * ((configuredBy 4 (iniOf 2 1 240 320 5 (scansLog 15))).pyr 3 (2 + 1)).depth.rows
          = ((configuredBy 4 (iniOf 2 1 240 320 5 (scansLog 15))).pyr 3 2).depth.rows ↔
        ((configuredBy 4 (iniOf 2 1 240 320 5 (scansLog 15))).pyr 3 2).depth.rows % 2 = 0) ∧
      (2 * ((configuredBy 4 (iniOf 2 1 240 320 5 (scansLog 15))).pyr 3 (2 + 1)).depth.cols
          = ((configuredBy 4 (iniOf 2 1 240 320 5 (scansLog 15))).pyr 3 2).depth.cols ↔
        ((configuredBy 4 (iniOf 2 1 240 320 5 (scansLog 15))).pyr 3 2).depth.cols % 2
          = 0)) :=
  loadConfiguration_pyramid 4 (iniOf 2 1 240 320 5 (scansLog 15)) .new
    (configuredBy 4 (iniOf 2 1 240 320 5 (scansLog 15))) 3 2 rfl (by decide) (by decide)

/-- C7, as stated, fails: with working width 320 equal to the target `cols`
and `ctf_levels = 0` the total level count `repr_level + ctf_levels` is zero,
yet `loadConfiguration` returns normally, with no configuration error. -/
theorem loadConfiguration_zero_levels_accepted :
    ∃ s, loadConfiguration 4 (iniOf 2 1 240 320 0 (scansLog 15)) .new = .ok s ∧
      s.repr_level + s.ctf_levels = 0 ∧
      ¬ (∃ e, loadConfiguration 4 (iniOf 2 1 240 320 0 (scansLog 15)) .new = .error e) :=
  ⟨_, rfl, by decide, by
    rintro ⟨e, he⟩
    have hok : loadConfiguration 4 (iniOf 2 1 240 320 0 (scansLog 15)) .new
        = .ok (configuredBy 4 (iniOf 2 1 240 320 0 (scansLog 15))) := rfl
    rw [hok] at he
    cases he⟩

/-- C7, amended: `loadConfiguration` checks neither `repr_level` nor the
level count. On every configuration with all options present and a log that
opens, with `cam_mode*downsample` non-zero modulo 2^32, `0 < cols <= width`
and at most 32 levels, it returns normally with
`repr_level = round(log2(width/cols))`; this includes a level count
`repr_level + ctf_levels` of zero, and then every pyramid grid is left as it
was. -/
theorem loadConfiguration_unchecked (NC : Nat) (s0 : CDifodoDatasets)
    (cm dsv rv cv lv : Int) (log : List CObservation)
    (hdiv : (toUInt cm * toUInt dsv) % 2 ^ 32 ≠ 0)
    (hcols : 0 < toUInt cv)
    (hwidth : toUInt cv ≤ 640 / ((toUInt cm * toUInt dsv) % 2 ^ 32))
    (hlevels :
      roundLog2 (640 / ((toUInt cm * toUInt dsv) % 2 ^ 32) / toUInt cv) + toUInt lv ≤ 32) :
    ∃ s, loadConfiguration NC (iniOf cm dsv rv cv lv log) s0 = .ok s ∧
      s.repr_level = roundLog2 (640 / ((toUInt cm * toUInt dsv) % 2 ^ 32) / toUInt cv) ∧
      pyrLevels s = s.repr_level + toUInt lv ∧
      (pyrLevels s = 0 → s.pyr = s0.pyr) := by
  have hq : 640 / ((toUInt cm * toUInt dsv) % 2 ^ 32) / toUInt cv ≠ 0 :=
    Nat.pos_iff_ne_zero.1 (Nat.div_pos hwidth hcols)
  have hlv : ¬ (0 < NC ∧
      32 < roundLog2 (640 / ((toUInt cm * toUInt dsv) % 2 ^ 32) / toUInt cv) + toUInt lv) :=
    fun h => absurd h.2 (not_lt.2 hlevels)
  have hok : ∃ s, loadConfiguration NC (iniOf cm dsv rv cv lv log) s0 = .ok s := by
    have hc0 : toUInt cv ≠ 0 := Nat.pos_iff_ne_zero.1 hcols
    unfold loadConfiguration iniOf
    simp only [read_int, bind, Except.bind, Bool.not_true, Bool.false_eq_true, false_and,
      if_false]
    rw [if_neg hdiv, if_neg hc0, if_neg hq, if_neg hlv]
    exact ⟨_, rfl⟩
  obtain ⟨s, hs⟩ := hok
  obtain ⟨⟨cm1, dsv1, a1, a2, _, a4, a5⟩, f2, f3, f4, f5, f6, f7, f8⟩ :=
    loadConfiguration_facts NC _ s0 s hs
  obtain ⟨_, _, _, cv1, lv1, _, b1, b2, _, b4, b5, _, _, _, _, _, b11⟩ :=
    loadConfiguration_of_ok NC _ s0 s hs
  have hcm : cm1 = cm := (Option.some.inj a1).symm
  have hds : dsv1 = dsv := (Option.some.inj a2).symm
  have hcv : cv1 = cv := (Option.some.inj b4).symm
  have hlv1 : lv1 = lv := (Option.some.inj b5).symm
  subst hcm hds hcv hlv1
  have hcolsEq : s.cols = toUInt cv1 := by
    rw [b11]
    exact (sizePyramid_spec NC _ _).2.2.1
  have hctf : s.ctf_levels = toUInt lv1 := by
    rw [b11]
    exact (sizePyramid_spec NC _ _).2.2.2.2.1
  have hrepr : s.repr_level
      = roundLog2 (640 / ((toUInt cm1 * toUInt dsv1) % 2 ^ 32) / toUInt cv1) := by
    rw [f5, a4, hcolsEq]
  have hpyr : pyrLevels s = s.repr_level + toUInt lv1 := by
    unfold pyrLevels
    rw [f5, hctf]
  refine ⟨s, hs, hrepr, hpyr, ?_⟩
  intro hzero
  funext c i
  rw [f8, if_neg]
  rintro ⟨_, h2⟩
  omega

/-- The configuration `cam_mode = 2`, `downsample = 1`, target 240 x 320 with
`ctf_levels = 0`. -/
theorem loadConfiguration_unchecked_witness :
    ∃ s, loadConfiguration 4 (iniOf 2 1 240 320 0 (scansLog 15)) .new = .ok s ∧
      s.repr_level = roundLog2 (640 / ((toUInt 2 * toUInt 1) % 2 ^ 32) / toUInt 320) ∧
      pyrLevels s = s.repr_level + toUInt 0 ∧
      (pyrLevels s = 0 → s.pyr = CDifodoDatasets.new.pyr) :=
  loadConfiguration_unchecked 4 .new 2 1 240 320 0 (scansLog 15) (by decide) (by decide)
    (by decide) (by decide)

/-- C8, as stated, fails: the configuration `cam_mode = 1`, `downsample = 1`,
target 150 x 200 is accepted with `repr_level = round(log2(640/200)) = 2`,
and the grids of level 2 are 120 x 160, not 150 x 200. -/
theorem repr_level_off_target :
    ∃ s, loadConfiguration 4 (iniOf 1 1 150 200 5 (scansLog 15)) .new = .ok s ∧
      s.repr_level = 2 ∧ s.rows = 150 ∧ s.cols = 200 ∧
      (s.pyr 0 s.repr_level).depth.rows = 120 ∧ (s.pyr 0 s.repr_level).depth.cols = 160 ∧
      ¬ (s.height / 2 ^ s.repr_level = s.rows ∧ s.width / 2 ^ s.repr_level = s.cols) :=
  ⟨_, rfl, by decide, by decide, by decide, by decide, by decide, by decide⟩

/-- C8, amended: for every configuration that `loadConfiguration` accepts
whose working resolution is the target resolution times a power of two
(`width = cols * 2^k`, `height = rows * 2^k`), `repr_level = k`,
`height / 2^repr_level = rows` and `width / 2^repr_level = cols`; when
moreover `ctf_levels >= 1`, so that level `repr_level` is allocated, all its
grids, the warped ones included, have exactly `rows x cols`. -/
theorem repr_level_target (NC : Nat) (ini : CConfigFileBase) (s0 s : CDifodoDatasets) (k : Nat)
    (h : loadConfiguration NC ini s0 = .ok s)
    (hw : s.width = s.cols * 2 ^ k) (hh : s.height = s.rows * 2 ^ k) :
    s.repr_level = k ∧ s.height / 2 ^ s.repr_level = s.rows ∧
      s.width / 2 ^ s.repr_level = s.cols ∧
      (0 < s.ctf_levels → ∀ c, c < NC → ∀ m ∈ (s.pyr c s.repr_level).grids true,
        m.rows = s.rows ∧ m.cols = s.cols) := by
  obtain ⟨_, f2, _, _, f5, _, _, f8⟩ := loadConfiguration_facts NC ini s0 s h
  have hpos : 0 < 2 ^ k := Nat.two_pow_pos k
  have hq : s.width / s.cols = 2 ^ k := by
    rw [hw, Nat.mul_div_cancel_left _ (Nat.pos_of_ne_zero f2)]
  have hr : s.repr_level = k := by rw [f5, hq, roundLog2_pow]
  have e1 : s.height / 2 ^ k = s.rows := by rw [hh, Nat.mul_div_cancel _ hpos]
  have e2 : s.width / 2 ^ k = s.cols := by rw [hw, Nat.mul_div_cancel _ hpos]
  rw [hr]
  refine ⟨rfl, e1, e2, ?_⟩
  intro hctf c hc m hm
  have hlev : k < pyrLevels s := by
    unfold pyrLevels
    rw [hq, roundLog2_pow]
    omega
  rw [f8, if_pos ⟨hc, hlev⟩] at hm
  have hdec : decide (s.width / 2 ^ k ≤ s.cols) = true := by
    rw [e2]
    exact decide_eq_true (le_refl _)
  have := sizedLevel_grids (s.height / 2 ^ k) (s.width / 2 ^ k) s.cols (s0.pyr c k) m
    (by rw [hdec]; exact hm)
  rw [e1, e2] at this
  exact this

/-- The configuration `cam_mode = 1`, `downsample = 1`, target 120 x 160:
working resolution 480 x 640, four times the target. -/
theorem repr_level_target_witness :
    (configuredBy 4 (iniOf 1 1 120 160 5 (scansLog 15))).repr_level = 2 ∧
      (configuredBy 4 (iniOf 1 1 120 160 5 (scansLog 15))).height
          / 2 ^ (configuredBy 4 (iniOf 1 1 120 160 5 (scansLog 15))).repr_level
        = (configuredBy 4 (iniOf 1 1 120 160 5 (scansLog 15))).rows ∧
      (configuredBy 4 (iniOf 1 1 120 160 5 (scansLog 15))).width
          / 2 ^ (configuredBy 4 (iniOf 1 1 120 160 5 (scansLog 15))).repr_level
        = (configuredBy 4 (iniOf 1 1 120 160 5 (scansLog 15))).cols ∧
      (0 < (configuredBy 4 (iniOf 1 1 120 160 5 (scansLog 15))).ctf_levels →
        ∀ c, c < 4 →
          ∀ m ∈ ((configuredBy 4 (iniOf 1 1 120 160 5 (scansLog 15))).pyr c
              (configuredBy 4 (iniOf 1 1 120 160 5 (scansLog 15))).repr_level).grids true,
            m.rows = (configuredBy 4 (iniOf 1 1 120 160 5 (scansLog 15))).rows ∧
            m.cols = (configuredBy 4 (iniOf 1 1 120 160 5 (scansLog 15))).cols) :=
  repr_level_target 4 (iniOf 1 1 120 160 5 (scansLog 15)) .new
    (configuredBy 4 (iniOf 1 1 120 160 5 (scansLog 15))) 2 rfl (by decide) (by decide)

end Difodo
